import Mathlib

/-!
Verification of the p2p repository's wire protocol (`protocol.py`) and peer
engine (`p2p/abstract_p2p_client.py`) against its natural-language
specification.

Python `bytes` values are modelled as `List Nat` (each element < 256 where it
matters).  `struct.pack('L', n)` / `struct.unpack('L', b)` are modelled as
4-byte little-endian unsigned 32-bit encode/decode: the source itself assumes
`calcsize('L') = 4` (every `unpack('L', …)` is applied to a 4-byte slice), and
the spec fixes the fields to 4-byte little-endian u32.  `struct.pack` raising
on out-of-range input is reflected by `n < 2^32` hypotheses in the theorems.
Fallible parsing (`ValueError` from `Protocol.unwrap`) is modelled with
`Option`: `none` is the single "bad packet" error (the `except Exception`
handler in `unwrap` converts every internal failure into one `ValueError`).
Recursive helpers that Python writes as loops are given a fuel argument so
that every definition is executable by kernel reduction; the fuel supplied by
the wrappers is always sufficient (proved by the fuel-irrelevance lemmas).
-/

set_option maxRecDepth 20000

namespace P2P

/-- Python `bytes` as a list of naturals (each < 256 for genuine byte strings). -/
abbrev Bytes := List Nat

/-- `Protocol.BARKER = b'BADFDADF'`. -/
def BARKER : Bytes := [66, 65, 68, 70, 68, 65, 68, 70]

/-- `Protocol.BEFORE_STUFF = b'BADFDAD'`. -/
def BEFORE_STUFF : Bytes := [66, 65, 68, 70, 68, 65, 68]

/-- `Protocol.AFTER_STUFF = b'BADFDADZ'`. -/
def AFTER_STUFF : Bytes := [66, 65, 68, 70, 68, 65, 68, 90]

/-- `Protocol.BARKER_LENGTH = len(BARKER)`. -/
def BARKER_LENGTH : Nat := 8

/-- Fuelled core of Python `bytes.replace(pat, repl)`: leftmost,
non-overlapping replacement of every occurrence of `pat`.  The fuel only
serves termination; `listReplace` always supplies enough. -/
def replaceF (pat repl : Bytes) : Nat → Bytes → Bytes
  | _, [] => []
  | 0, s => s
  | fuel + 1, h :: t =>
    if pat.isPrefixOf (h :: t) then
      repl ++ replaceF pat repl fuel ((h :: t).drop pat.length)
    else
      h :: replaceF pat repl fuel t

/-- Python `s.replace(pat, repl)` for a non-empty pattern `pat`. -/
def listReplace (pat repl s : Bytes) : Bytes := replaceF pat repl s.length s

/-- `Protocol._stuff_data`: `data.replace(BEFORE_STUFF, AFTER_STUFF)`. -/
def stuff_data (d : Bytes) : Bytes := listReplace BEFORE_STUFF AFTER_STUFF d

/-- `Protocol._unstuff_data`: `data.replace(AFTER_STUFF, BEFORE_STUFF)`. -/
def unstuff_data (d : Bytes) : Bytes := listReplace AFTER_STUFF BEFORE_STUFF d

/-- One shift step of the reflected CRC-32 register (polynomial 0xEDB88320). -/
def crcStep (c : Nat) : Nat := if c % 2 = 1 then (c / 2) ^^^ 0xEDB88320 else c / 2

/-- Feed one byte into the CRC-32 register. -/
def crcByte (c b : Nat) : Nat := crcStep^[8] (c ^^^ b)

/-- `zlib.crc32(d)`: init 0xFFFFFFFF, reflected polynomial 0xEDB88320,
final xor 0xFFFFFFFF. -/
def crc32 (d : Bytes) : Nat := (d.foldl crcByte 0xFFFFFFFF) ^^^ 0xFFFFFFFF

/-- `struct.pack('L', n)` (4-byte little-endian u32; the code only packs
in-range values, enforced by hypotheses). -/
def packU32 (n : Nat) : Bytes :=
  [n % 256, n / 256 % 256, n / 65536 % 256, n / 16777216 % 256]

/-- `struct.unpack('L', d[i:i+4])`: `none` models `struct.error` on a slice
shorter than 4 bytes. -/
def readU32 (d : Bytes) (i : Nat) : Option Nat :=
  match d[i]?, d[i+1]?, d[i+2]?, d[i+3]? with
  | some a, some b, some c, some e => some (a + 256 * b + 65536 * c + 16777216 * e)
  | _, _, _, _ => none

/-- The 5-tuple returned by `Protocol.unwrap`:
`(message, message_id, stream_id, acked_message_id, redundant_bytes)`. -/
structure Unwrapped where
  message : Option Bytes
  messageId : Option Nat
  streamId : Option Nat
  ackedMessageId : Option Nat
  redundantBytes : Bytes
deriving Repr, DecidableEq

/-- `Protocol._extract_message(data, current_index)`: read the size field,
slice the stuffed payload, read and check the CRC, unstuff, and return the
redundant tail.  `none` models the `ValueError` on CRC mismatch and the
`struct.error` on a truncated size or CRC field. -/
def extract_message (data : Bytes) (currentIndex : Nat) : Option (Bytes × Bytes) := do
  let dataSize ← readU32 data currentIndex
  let stuffed := (data.drop (currentIndex + 4)).take dataSize
  let crc ← readU32 data (currentIndex + 4 + dataSize)
  let redundant := data.drop (currentIndex + 4 + dataSize + 4)
  if crc = crc32 stuffed then
    pure (unstuff_data stuffed, redundant)
  else
    none

/-- `Protocol.wrap_reliable(data, message_id)` (packet type 0). -/
def wrap_reliable (data : Bytes) (messageId : Nat) : Bytes :=
  let stuffed := stuff_data data
  BARKER ++ [0] ++ packU32 messageId ++ packU32 stuffed.length ++ stuffed
    ++ packU32 (crc32 stuffed)

/-- `Protocol.wrap_unreliable(data)` (packet type 1). -/
def wrap_unreliable (data : Bytes) : Bytes :=
  let stuffed := stuff_data data
  BARKER ++ [1] ++ packU32 stuffed.length ++ stuffed ++ packU32 (crc32 stuffed)

/-- `Protocol.wrap_reliable_stream(data, message_id, stream_id)` (packet type 2). -/
def wrap_reliable_stream (data : Bytes) (messageId streamId : Nat) : Bytes :=
  let stuffed := stuff_data data
  BARKER ++ [2] ++ packU32 messageId ++ packU32 streamId
    ++ packU32 stuffed.length ++ stuffed ++ packU32 (crc32 stuffed)

/-- `Protocol.wrap_unreliable_stream(data, stream_id)` (packet type 3). -/
def wrap_unreliable_stream (data : Bytes) (streamId : Nat) : Bytes :=
  let stuffed := stuff_data data
  BARKER ++ [3] ++ packU32 streamId ++ packU32 stuffed.length ++ stuffed
    ++ packU32 (crc32 stuffed)

/-- `Protocol.wrap_ack(acked_message_id)` (packet type 4, no CRC). -/
def wrap_ack (ackedMessageId : Nat) : Bytes :=
  BARKER ++ [4] ++ packU32 ackedMessageId

/-- `Protocol._unwrap_reliable`. -/
def unwrap_reliable (data : Bytes) : Option Unwrapped := do
  let messageId ← readU32 data (BARKER_LENGTH + 1)
  let (message, redundant) ← extract_message data (BARKER_LENGTH + 1 + 4)
  pure ⟨some message, some messageId, none, none, redundant⟩

/-- `Protocol._unwrap_unreliable`. -/
def unwrap_unreliable (data : Bytes) : Option Unwrapped := do
  let (message, redundant) ← extract_message data (BARKER_LENGTH + 1)
  pure ⟨some message, none, none, none, redundant⟩

/-- `Protocol._unwrap_reliable_stream`. -/
def unwrap_reliable_stream (data : Bytes) : Option Unwrapped := do
  let messageId ← readU32 data (BARKER_LENGTH + 1)
  let streamId ← readU32 data (BARKER_LENGTH + 1 + 4)
  let (message, redundant) ← extract_message data (BARKER_LENGTH + 1 + 4 + 4)
  pure ⟨some message, some messageId, some streamId, none, redundant⟩

/-- `Protocol._unwrap_unreliable_stream`. -/
def unwrap_unreliable_stream (data : Bytes) : Option Unwrapped := do
  let streamId ← readU32 data (BARKER_LENGTH + 1)
  let (message, redundant) ← extract_message data (BARKER_LENGTH + 1 + 4)
  pure ⟨some message, none, some streamId, none, redundant⟩

/-- `Protocol._unwrap_ack`: no CRC; everything after the acked id is the
redundant tail. -/
def unwrap_ack (data : Bytes) : Option Unwrapped := do
  let ackedMessageId ← readU32 data (BARKER_LENGTH + 1)
  pure ⟨none, none, none, some ackedMessageId, data.drop (BARKER_LENGTH + 1 + 4)⟩

/-- `Protocol.unwrap(data)`: validate the barker, dispatch on the packet-type
byte through `PACKET_TYPE_TO_UNWRAPPER`.  `none` is the single `ValueError`
that the surrounding `except Exception` handler produces for every failure
(missing barker, missing or unknown type byte via `IndexError`/`KeyError`,
truncated fields via `struct.error`, CRC mismatch). -/
def unwrap (data : Bytes) : Option Unwrapped :=
  if BARKER.isPrefixOf data then
    match data[BARKER_LENGTH]? with
    | some 0 => unwrap_reliable data
    | some 1 => unwrap_unreliable data
    | some 2 => unwrap_reliable_stream data
    | some 3 => unwrap_unreliable_stream data
    | some 4 => unwrap_ack data
    | _ => none
  else
    none

example : unwrap (wrap_reliable [1, 2, 3] 5) =
    some ⟨some [1, 2, 3], some 5, none, none, []⟩ := by decide

example : unwrap (wrap_reliable BARKER 5) =
    some ⟨some BARKER, some 5, none, none, []⟩ := by decide

example : unwrap (wrap_reliable_stream AFTER_STUFF 7 7771) =
    some ⟨some AFTER_STUFF, some 7, some 7771, none, []⟩ := by decide

example : unwrap (wrap_ack 9) = some ⟨none, none, none, some 9, []⟩ := by decide

/-! ### Unfolding and fuel-irrelevance lemmas for `listReplace` -/

theorem replaceF_nil (pat repl : Bytes) (f : Nat) : replaceF pat repl f [] = [] := by
  cases f <;> rfl

theorem replaceF_fuel (pat repl : Bytes) (hp : pat ≠ []) :
    ∀ f g s, s.length ≤ f → s.length ≤ g →
      replaceF pat repl f s = replaceF pat repl g s := by
  intro f
  induction f using Nat.strong_induction_on with
  | _ f ih =>
    intro g s hf hg
    have hpat : 1 ≤ pat.length := by
      cases pat with
      | nil => exact absurd rfl hp
      | cons a l => simp
    match s with
    | [] => simp [replaceF_nil]
    | h :: t =>
      match f, g with
      | 0, _ => simp at hf
      | _ + 1, 0 => simp at hg
      | f' + 1, g' + 1 =>
        simp only [replaceF]
        by_cases hpre : pat.isPrefixOf (h :: t)
        · simp only [if_pos hpre]
          have hf' : ((h :: t).drop pat.length).length ≤ f' := by
            simp only [List.length_drop, List.length_cons]
            simp only [List.length_cons] at hf
            omega
          have hg' : ((h :: t).drop pat.length).length ≤ g' := by
            simp only [List.length_drop, List.length_cons]
            simp only [List.length_cons] at hg
            omega
          rw [ih f' (by omega) g' _ hf' hg']
        · simp only [if_neg hpre]
          have hf' : t.length ≤ f' := by
            simp only [List.length_cons] at hf; omega
          have hg' : t.length ≤ g' := by
            simp only [List.length_cons] at hg; omega
          rw [ih f' (by omega) g' t hf' hg']

theorem listReplace_nil (pat repl : Bytes) : listReplace pat repl [] = [] := rfl

theorem listReplace_pos (pat repl : Bytes) (hp : pat ≠ []) (s : Bytes)
    (hpre : pat.isPrefixOf s) :
    listReplace pat repl s = repl ++ listReplace pat repl (s.drop pat.length) := by
  have hpat : 1 ≤ pat.length := by
    cases pat with
    | nil => exact absurd rfl hp
    | cons a l => simp
  match s with
  | [] =>
    exfalso
    have hle := (List.isPrefixOf_iff_prefix.mp hpre).length_le
    simp only [List.length_nil, Nat.le_zero] at hle
    exact hp (List.eq_nil_of_length_eq_zero hle)
  | h :: t =>
    show replaceF pat repl (t.length + 1) (h :: t) = _
    simp only [replaceF, if_pos hpre]
    have hlen : ((h :: t).drop pat.length).length ≤ t.length := by
      simp only [List.length_drop, List.length_cons]; omega
    exact congrArg (repl ++ ·)
      (replaceF_fuel pat repl hp t.length _ _ hlen le_rfl)

theorem listReplace_neg (pat repl : Bytes) (h : Nat) (t : Bytes)
    (hpre : ¬ pat.isPrefixOf (h :: t)) :
    listReplace pat repl (h :: t) = h :: listReplace pat repl t := by
  show replaceF pat repl (t.length + 1) (h :: t) = _
  simp only [replaceF, if_neg hpre]
  rfl

theorem listReplace_append_pat (pat repl rest : Bytes) (hp : pat ≠ []) :
    listReplace pat repl (pat ++ rest) = repl ++ listReplace pat repl rest := by
  rw [listReplace_pos pat repl hp _
    (List.isPrefixOf_iff_prefix.mpr (List.prefix_append pat rest))]
  rw [List.drop_left]

/-! ### The stuffing round-trip -/

/-- Every proper suffix pattern of `BEFORE_STUFF` that occurs at the head of
stuffed output already occurred at the head of the input: stuffing never
creates a `BADFDAD` head out of inserted `Z` bytes. -/
theorem suffix_prefix_stuff : ∀ n t k, t.length ≤ n → 1 ≤ k → k ≤ 6 →
    (BEFORE_STUFF.drop k) <+: stuff_data t → (BEFORE_STUFF.drop k) <+: t := by
  intro n
  induction n with
  | zero =>
    intro t k ht hk1 hk6 hpre
    have : t = [] := List.eq_nil_of_length_eq_zero (by omega)
    subst this
    simp only [stuff_data, listReplace_nil] at hpre
    rw [List.prefix_nil] at hpre
    interval_cases k <;> simp [BEFORE_STUFF] at hpre
  | succ n ih =>
    intro t k ht hk1 hk6 hpre
    by_cases hb : BEFORE_STUFF.isPrefixOf t
    · exfalso
      rw [stuff_data, listReplace_pos _ _ (by decide) _ hb] at hpre
      interval_cases k <;>
        simp [BEFORE_STUFF, AFTER_STUFF, List.cons_prefix_cons] at hpre
    · match t with
      | [] =>
        simp only [stuff_data, listReplace_nil] at hpre
        rw [List.prefix_nil] at hpre
        interval_cases k <;> simp [BEFORE_STUFF] at hpre
      | h :: t' =>
        rw [stuff_data, listReplace_neg _ _ _ _ hb] at hpre
        have hlen : t'.length ≤ n := by
          simp only [List.length_cons] at ht; omega
        interval_cases k
        · simp only [BEFORE_STUFF, List.drop_succ_cons, List.drop_zero,
            List.cons_prefix_cons] at hpre ⊢
          refine ⟨hpre.1, ?_⟩
          have h2 : BEFORE_STUFF.drop 2 <+: stuff_data t' := by
            simpa [BEFORE_STUFF] using hpre.2
          simpa [BEFORE_STUFF] using ih t' 2 hlen (by omega) (by omega) h2
        · simp only [BEFORE_STUFF, List.drop_succ_cons, List.drop_zero,
            List.cons_prefix_cons] at hpre ⊢
          refine ⟨hpre.1, ?_⟩
          have h2 : BEFORE_STUFF.drop 3 <+: stuff_data t' := by
            simpa [BEFORE_STUFF] using hpre.2
          simpa [BEFORE_STUFF] using ih t' 3 hlen (by omega) (by omega) h2
        · simp only [BEFORE_STUFF, List.drop_succ_cons, List.drop_zero,
            List.cons_prefix_cons] at hpre ⊢
          refine ⟨hpre.1, ?_⟩
          have h2 : BEFORE_STUFF.drop 4 <+: stuff_data t' := by
            simpa [BEFORE_STUFF] using hpre.2
          simpa [BEFORE_STUFF] using ih t' 4 hlen (by omega) (by omega) h2
        · simp only [BEFORE_STUFF, List.drop_succ_cons, List.drop_zero,
            List.cons_prefix_cons] at hpre ⊢
          refine ⟨hpre.1, ?_⟩
          have h2 : BEFORE_STUFF.drop 5 <+: stuff_data t' := by
            simpa [BEFORE_STUFF] using hpre.2
          simpa [BEFORE_STUFF] using ih t' 5 hlen (by omega) (by omega) h2
        · simp only [BEFORE_STUFF, List.drop_succ_cons, List.drop_zero,
            List.cons_prefix_cons] at hpre ⊢
          refine ⟨hpre.1, ?_⟩
          have h2 : BEFORE_STUFF.drop 6 <+: stuff_data t' := by
            simpa [BEFORE_STUFF] using hpre.2
          simpa [BEFORE_STUFF] using ih t' 6 hlen (by omega) (by omega) h2
        · simp only [BEFORE_STUFF, List.drop_succ_cons, List.drop_zero,
            List.cons_prefix_cons] at hpre ⊢
          exact ⟨hpre.1, List.nil_prefix⟩

/-- If `BADFDAD` heads the stuffed output it already headed the input. -/
theorem before_prefix_stuff (t : Bytes) (hpre : BEFORE_STUFF <+: stuff_data t) :
    BEFORE_STUFF <+: t := by
  by_cases hb : BEFORE_STUFF.isPrefixOf t
  · exact List.isPrefixOf_iff_prefix.mp hb
  · match t with
    | [] =>
      simp only [stuff_data, listReplace_nil] at hpre
      rw [List.prefix_nil] at hpre
      simp [BEFORE_STUFF] at hpre
    | h :: t' =>
      rw [stuff_data, listReplace_neg _ _ _ _ hb] at hpre
      simp only [BEFORE_STUFF, List.cons_prefix_cons] at hpre ⊢
      refine ⟨hpre.1, ?_⟩
      have h2 : BEFORE_STUFF.drop 1 <+: stuff_data t' := by
        simpa [BEFORE_STUFF] using hpre.2
      simpa [BEFORE_STUFF] using
        suffix_prefix_stuff t'.length t' 1 le_rfl (by omega) (by omega) h2

theorem unstuff_stuff_aux : ∀ n s, s.length ≤ n →
    unstuff_data (stuff_data s) = s := by
  intro n
  induction n with
  | zero =>
    intro s hs
    have : s = [] := List.eq_nil_of_length_eq_zero (by omega)
    subst this; rfl
  | succ n ih =>
    intro s hs
    by_cases hb : BEFORE_STUFF.isPrefixOf s
    · have hb' : BEFORE_STUFF <+: s := List.isPrefixOf_iff_prefix.mp hb
      have hsplit : BEFORE_STUFF ++ s.drop BEFORE_STUFF.length = s := by
        conv_rhs => rw [← List.take_append_drop BEFORE_STUFF.length s]
        rw [← List.prefix_iff_eq_take.mp hb']
      rw [stuff_data, listReplace_pos _ _ (by decide) _ hb]
      have hdrop : (s.drop BEFORE_STUFF.length).length ≤ n := by
        have h7 : 7 ≤ s.length := by
          simpa [BEFORE_STUFF] using hb'.length_le
        simp only [List.length_drop, BEFORE_STUFF, List.length_cons] at *
        omega
      rw [show listReplace BEFORE_STUFF AFTER_STUFF (s.drop BEFORE_STUFF.length) =
          stuff_data (s.drop BEFORE_STUFF.length) from rfl]
      rw [unstuff_data, listReplace_append_pat _ _ _ (by decide)]
      rw [show listReplace AFTER_STUFF BEFORE_STUFF
          (stuff_data (s.drop BEFORE_STUFF.length)) =
          unstuff_data (stuff_data (s.drop BEFORE_STUFF.length)) from rfl]
      rw [ih _ hdrop, hsplit]
    · match s with
      | [] => rfl
      | h :: t =>
        rw [stuff_data, listReplace_neg _ _ _ _ hb]
        rw [show listReplace BEFORE_STUFF AFTER_STUFF t = stuff_data t from rfl]
        have hA : ¬ AFTER_STUFF.isPrefixOf (h :: stuff_data t) := by
          intro hc
          have hBpre : BEFORE_STUFF <+: h :: stuff_data t :=
            List.IsPrefix.trans (by decide) (List.isPrefixOf_iff_prefix.mp hc)
          have hstuff : stuff_data (h :: t) = h :: stuff_data t := by
            rw [stuff_data, listReplace_neg _ _ _ _ hb]
            rfl
          rw [← hstuff] at hBpre
          exact hb (List.isPrefixOf_iff_prefix.mpr (before_prefix_stuff _ hBpre))
        rw [unstuff_data, listReplace_neg _ _ _ _ hA]
        have hlen : t.length ≤ n := by
          simp only [List.length_cons] at hs; omega
        rw [show listReplace AFTER_STUFF BEFORE_STUFF (stuff_data t) =
            unstuff_data (stuff_data t) from rfl, ih _ hlen]

/-- The byte-stuffing round-trip: unstuffing inverts stuffing on every input. -/
theorem stuff_roundtrip (s : Bytes) : unstuff_data (stuff_data s) = s :=
  unstuff_stuff_aux s.length s le_rfl

/-! ### Range and length bounds for the wrapped fields -/

theorem crcStep_lt {c : Nat} (hc : c < 2 ^ 32) : crcStep c < 2 ^ 32 := by
  unfold crcStep
  split
  · exact Nat.xor_lt_two_pow (by omega) (by norm_num)
  · omega

theorem crcByte_lt {c b : Nat} (hc : c < 2 ^ 32) (hb : b < 2 ^ 32) :
    crcByte c b < 2 ^ 32 := by
  unfold crcByte
  have h : ∀ k x, x < 2 ^ 32 → crcStep^[k] x < 2 ^ 32 := by
    intro k
    induction k with
    | zero => intro x hx; simpa using hx
    | succ k ih =>
      intro x hx
      rw [Function.iterate_succ_apply]
      exact ih _ (crcStep_lt hx)
  exact h 8 _ (Nat.xor_lt_two_pow hc hb)

theorem crcFold_lt {d : Bytes} (hd : ∀ b ∈ d, b < 256) {c : Nat} (hc : c < 2 ^ 32) :
    d.foldl crcByte c < 2 ^ 32 := by
  induction d generalizing c with
  | nil => simpa using hc
  | cons b t ih =>
    have hb : b < 2 ^ 32 := by
      have := hd b (by simp)
      omega
    exact ih (fun x hx => hd x (by simp [hx])) (crcByte_lt hc hb)

theorem crc32_lt {d : Bytes} (hd : ∀ b ∈ d, b < 256) : crc32 d < 2 ^ 32 := by
  unfold crc32
  exact Nat.xor_lt_two_pow (crcFold_lt hd (by norm_num)) (by norm_num)

theorem mem_replaceF (pat repl : Bytes) :
    ∀ f s x, x ∈ replaceF pat repl f s → x ∈ s ∨ x ∈ repl := by
  intro f
  induction f with
  | zero =>
    intro s x hx
    match s with
    | [] => simp [replaceF_nil] at hx
    | h :: t => exact Or.inl hx
  | succ f ih =>
    intro s x hx
    match s with
    | [] => simp [replaceF_nil] at hx
    | h :: t =>
      simp only [replaceF] at hx
      by_cases hpre : pat.isPrefixOf (h :: t)
      · rw [if_pos hpre] at hx
        rcases List.mem_append.mp hx with hr | hrec
        · exact Or.inr hr
        · rcases ih _ _ hrec with hs | hr
          · exact Or.inl (List.mem_of_mem_drop hs)
          · exact Or.inr hr
      · rw [if_neg hpre] at hx
        rcases List.mem_cons.mp hx with he | hrec
        · exact Or.inl (by simp [he])
        · rcases ih _ _ hrec with hs | hr
          · exact Or.inl (by simp [hs])
          · exact Or.inr hr

theorem stuff_data_bytes_lt {d : Bytes} (hd : ∀ b ∈ d, b < 256) :
    ∀ b ∈ stuff_data d, b < 256 := by
  intro b hb
  rcases mem_replaceF BEFORE_STUFF AFTER_STUFF d.length d b hb with h | h
  · exact hd b h
  · simp only [AFTER_STUFF, List.mem_cons, List.not_mem_nil, or_false] at h
    rcases h with h | h | h | h | h | h | h | h <;> omega

theorem replaceF_stuff_length :
    ∀ f s, (replaceF BEFORE_STUFF AFTER_STUFF f s).length ≤ 2 * s.length := by
  intro f
  induction f with
  | zero =>
    intro s
    match s with
    | [] => simp [replaceF_nil]
    | h :: t =>
      show (h :: t).length ≤ 2 * (h :: t).length
      omega
  | succ f ih =>
    intro s
    match s with
    | [] => simp [replaceF_nil]
    | h :: t =>
      simp only [replaceF]
      by_cases hpre : BEFORE_STUFF.isPrefixOf (h :: t)
      · rw [if_pos hpre]
        have h7 : 7 ≤ t.length + 1 := by
          simpa [BEFORE_STUFF] using (List.isPrefixOf_iff_prefix.mp hpre).length_le
        have hrec := ih ((h :: t).drop BEFORE_STUFF.length)
        have hA : AFTER_STUFF.length = 8 := rfl
        have hB : BEFORE_STUFF.length = 7 := rfl
        simp only [List.length_append, List.length_drop, List.length_cons, hA, hB]
          at hrec ⊢
        omega
      · rw [if_neg hpre]
        have hrec := ih t
        simp only [List.length_cons]
        omega

theorem stuff_data_length_le (d : Bytes) : (stuff_data d).length ≤ 2 * d.length :=
  replaceF_stuff_length d.length d

/-! ### Parse mechanics: reading the fields of a frame back out of the bytes -/

theorem getElem?_append_add (pre post : Bytes) (j : Nat) :
    (pre ++ post)[pre.length + j]? = post[j]? := by
  rw [List.getElem?_append_right (Nat.le_add_right _ _)]
  congr 1
  omega

theorem readU32_append (pre post : Bytes) (n : Nat) (hn : n < 2 ^ 32) :
    readU32 (pre ++ (packU32 n ++ post)) pre.length = some n := by
  have e0 : (pre ++ (packU32 n ++ post))[pre.length]? = some (n % 256) := by
    rw [List.getElem?_append_right le_rfl, Nat.sub_self]
    simp [packU32]
  have e1 : (pre ++ (packU32 n ++ post))[pre.length + 1]? = some (n / 256 % 256) := by
    rw [getElem?_append_add pre (packU32 n ++ post) 1]
    simp [packU32]
  have e2 : (pre ++ (packU32 n ++ post))[pre.length + 2]? = some (n / 65536 % 256) := by
    rw [getElem?_append_add pre (packU32 n ++ post) 2]
    simp [packU32]
  have e3 : (pre ++ (packU32 n ++ post))[pre.length + 3]? = some (n / 16777216 % 256) := by
    rw [getElem?_append_add pre (packU32 n ++ post) 3]
    simp [packU32]
  simp only [readU32, e0, e1, e2, e3, Option.some.injEq]
  omega

theorem drop_header (pre tail : Bytes) :
    (pre ++ tail).drop pre.length = tail := List.drop_left pre tail

theorem drop_at (pre tail : Bytes) {n : Nat} (h : pre.length = n) :
    (pre ++ tail).drop n = tail := by
  rw [← h]
  exact List.drop_left pre tail

theorem take_at (pre tail : Bytes) {n : Nat} (h : pre.length = n) :
    (pre ++ tail).take n = pre := by
  rw [← h]
  exact List.take_left pre tail

theorem readU32_at (pre post : Bytes) (n : Nat) {i : Nat} (hn : n < 2 ^ 32)
    (h : pre.length = i) : readU32 (pre ++ (packU32 n ++ post)) i = some n := by
  rw [← h]
  exact readU32_append pre post n hn

/-- The packet-type byte sits at offset 8, right after the Barker. -/
theorem getElem?_barker_append (rest : Bytes) (t : Nat) :
    (BARKER ++ (t :: rest))[8]? = some t := by
  rw [List.getElem?_append_right (by decide : BARKER.length ≤ 8)]
  simp [BARKER]

/-- Parsing the `size ‖ stuffed ‖ crc` tail of a frame: `_extract_message`
succeeds exactly when the stored CRC matches, returning the unstuffed payload
and an empty redundant tail. -/
theorem extract_message_spec (pre s : Bytes) (C : Nat)
    (hs : s.length < 2 ^ 32) (hC : C < 2 ^ 32) :
    extract_message (pre ++ (packU32 s.length ++ (s ++ packU32 C))) pre.length =
      if C = crc32 s then some (unstuff_data s, []) else none := by
  have hsize : readU32 (pre ++ (packU32 s.length ++ (s ++ packU32 C))) pre.length =
      some s.length := readU32_append pre (s ++ packU32 C) s.length hs
  have hl4 : (pre ++ packU32 s.length).length = pre.length + 4 := by
    simp only [List.length_append, packU32, List.length_cons, List.length_nil]
  have hdrop : (pre ++ (packU32 s.length ++ (s ++ packU32 C))).drop (pre.length + 4) =
      s ++ packU32 C := by
    calc (pre ++ (packU32 s.length ++ (s ++ packU32 C))).drop (pre.length + 4)
        = ((pre ++ packU32 s.length) ++ (s ++ packU32 C)).drop
            ((pre ++ packU32 s.length).length) := by rw [hl4, List.append_assoc]
      _ = s ++ packU32 C := List.drop_left _ _
  have htake : (s ++ packU32 C).take s.length = s := List.take_left s _
  have hlcrc : ((pre ++ packU32 s.length) ++ s).length = pre.length + 4 + s.length := by
    simp only [List.length_append, packU32, List.length_cons, List.length_nil]
  have hcrcread : readU32 (pre ++ (packU32 s.length ++ (s ++ packU32 C)))
      (pre.length + 4 + s.length) = some C := by
    have h := readU32_append ((pre ++ packU32 s.length) ++ s) [] C hC
    rw [hlcrc] at h
    rw [List.append_assoc, List.append_assoc] at h
    simpa using h
  have hred : (pre ++ (packU32 s.length ++ (s ++ packU32 C))).drop
      (pre.length + 4 + s.length + 4) = [] := by
    apply List.drop_eq_nil_of_le
    simp [packU32]
    omega
  simp only [extract_message, hsize, Option.bind_eq_bind, Option.some_bind,
    hdrop, htake, hcrcread, hred, Option.pure_def]

/-- `unwrap` of a type-0 frame built from an already stuffed body. -/
theorem unwrap_wrap_reliable (p : Bytes) (m : Nat) (hm : m < 2 ^ 32)
    (hlen : (stuff_data p).length < 2 ^ 32) (hC : crc32 (stuff_data p) < 2 ^ 32) :
    unwrap (wrap_reliable p m) =
      some ⟨some (unstuff_data (stuff_data p)), some m, none, none, []⟩ := by
  have hw : unwrap (wrap_reliable p m) =
      unwrap_reliable ((BARKER ++ [0]) ++ (packU32 m ++ (packU32 (stuff_data p).length ++
        (stuff_data p ++ packU32 (crc32 (stuff_data p)))))) := rfl
  rw [hw]
  have h9 : readU32 ((BARKER ++ [0]) ++ (packU32 m ++ (packU32 (stuff_data p).length ++
      (stuff_data p ++ packU32 (crc32 (stuff_data p)))))) (BARKER_LENGTH + 1) =
      some m :=
    readU32_append (BARKER ++ [0]) _ m hm
  have h13 : extract_message ((BARKER ++ [0]) ++ (packU32 m ++
      (packU32 (stuff_data p).length ++ (stuff_data p ++
        packU32 (crc32 (stuff_data p)))))) (BARKER_LENGTH + 1 + 4) =
      some (unstuff_data (stuff_data p), []) := by
    have h := extract_message_spec ((BARKER ++ [0]) ++ packU32 m) (stuff_data p)
      (crc32 (stuff_data p)) hlen hC
    rw [if_pos rfl] at h
    exact h
  simp only [unwrap_reliable, h9, Option.bind_eq_bind, Option.some_bind, h13,
    Option.pure_def]

/-- `unwrap` of a type-1 frame built from an already stuffed body. -/
theorem unwrap_wrap_unreliable (p : Bytes)
    (hlen : (stuff_data p).length < 2 ^ 32) (hC : crc32 (stuff_data p) < 2 ^ 32) :
    unwrap (wrap_unreliable p) =
      some ⟨some (unstuff_data (stuff_data p)), none, none, none, []⟩ := by
  have hw : unwrap (wrap_unreliable p) =
      unwrap_unreliable ((BARKER ++ [1]) ++ (packU32 (stuff_data p).length ++
        (stuff_data p ++ packU32 (crc32 (stuff_data p))))) := rfl
  rw [hw]
  have h9 : extract_message ((BARKER ++ [1]) ++ (packU32 (stuff_data p).length ++
      (stuff_data p ++ packU32 (crc32 (stuff_data p))))) (BARKER_LENGTH + 1) =
      some (unstuff_data (stuff_data p), []) := by
    have h := extract_message_spec (BARKER ++ [1]) (stuff_data p)
      (crc32 (stuff_data p)) hlen hC
    rw [if_pos rfl] at h
    exact h
  simp only [unwrap_unreliable, h9, Option.bind_eq_bind, Option.some_bind,
    Option.pure_def]

/-- `unwrap` of a type-2 frame built from an already stuffed body. -/
theorem unwrap_wrap_reliable_stream (p : Bytes) (m sid : Nat)
    (hm : m < 2 ^ 32) (hsid : sid < 2 ^ 32)
    (hlen : (stuff_data p).length < 2 ^ 32) (hC : crc32 (stuff_data p) < 2 ^ 32) :
    unwrap (wrap_reliable_stream p m sid) =
      some ⟨some (unstuff_data (stuff_data p)), some m, some sid, none, []⟩ := by
  have hw : unwrap (wrap_reliable_stream p m sid) =
      unwrap_reliable_stream ((BARKER ++ [2]) ++ (packU32 m ++ (packU32 sid ++
        (packU32 (stuff_data p).length ++ (stuff_data p ++
          packU32 (crc32 (stuff_data p))))))) := rfl
  rw [hw]
  have h9 : readU32 ((BARKER ++ [2]) ++ (packU32 m ++ (packU32 sid ++
      (packU32 (stuff_data p).length ++ (stuff_data p ++
        packU32 (crc32 (stuff_data p))))))) (BARKER_LENGTH + 1) = some m :=
    readU32_append (BARKER ++ [2]) _ m hm
  have h13 : readU32 ((BARKER ++ [2]) ++ (packU32 m ++ (packU32 sid ++
      (packU32 (stuff_data p).length ++ (stuff_data p ++
        packU32 (crc32 (stuff_data p))))))) (BARKER_LENGTH + 1 + 4) = some sid := by
    have h := readU32_append ((BARKER ++ [2]) ++ packU32 m) (packU32 (stuff_data p).length ++
      (stuff_data p ++ packU32 (crc32 (stuff_data p)))) sid hsid
    exact h
  have h17 : extract_message ((BARKER ++ [2]) ++ (packU32 m ++ (packU32 sid ++
      (packU32 (stuff_data p).length ++ (stuff_data p ++
        packU32 (crc32 (stuff_data p))))))) (BARKER_LENGTH + 1 + 4 + 4) =
      some (unstuff_data (stuff_data p), []) := by
    have h := extract_message_spec (((BARKER ++ [2]) ++ packU32 m) ++ packU32 sid)
      (stuff_data p) (crc32 (stuff_data p)) hlen hC
    rw [if_pos rfl] at h
    exact h
  simp only [unwrap_reliable_stream, h9, Option.bind_eq_bind, Option.some_bind,
    h13, h17, Option.pure_def]

/-- `unwrap` of a type-3 frame built from an already stuffed body. -/
theorem unwrap_wrap_unreliable_stream (p : Bytes) (sid : Nat) (hsid : sid < 2 ^ 32)
    (hlen : (stuff_data p).length < 2 ^ 32) (hC : crc32 (stuff_data p) < 2 ^ 32) :
    unwrap (wrap_unreliable_stream p sid) =
      some ⟨some (unstuff_data (stuff_data p)), none, some sid, none, []⟩ := by
  have hw : unwrap (wrap_unreliable_stream p sid) =
      unwrap_unreliable_stream ((BARKER ++ [3]) ++ (packU32 sid ++
        (packU32 (stuff_data p).length ++ (stuff_data p ++
          packU32 (crc32 (stuff_data p)))))) := rfl
  rw [hw]
  have h9 : readU32 ((BARKER ++ [3]) ++ (packU32 sid ++
      (packU32 (stuff_data p).length ++ (stuff_data p ++
        packU32 (crc32 (stuff_data p)))))) (BARKER_LENGTH + 1) = some sid :=
    readU32_append (BARKER ++ [3]) _ sid hsid
  have h13 : extract_message ((BARKER ++ [3]) ++ (packU32 sid ++
      (packU32 (stuff_data p).length ++ (stuff_data p ++
        packU32 (crc32 (stuff_data p)))))) (BARKER_LENGTH + 1 + 4) =
      some (unstuff_data (stuff_data p), []) := by
    have h := extract_message_spec ((BARKER ++ [3]) ++ packU32 sid) (stuff_data p)
      (crc32 (stuff_data p)) hlen hC
    rw [if_pos rfl] at h
    exact h
  simp only [unwrap_unreliable_stream, h9, Option.bind_eq_bind, Option.some_bind,
    h13, Option.pure_def]

/-- `unwrap` of an ACK frame. -/
theorem unwrap_wrap_ack (a : Nat) (ha : a < 2 ^ 32) :
    unwrap (wrap_ack a) = some ⟨none, none, none, some a, []⟩ := by
  have hw : unwrap (wrap_ack a) =
      unwrap_ack ((BARKER ++ [4]) ++ (packU32 a ++ [])) := rfl
  rw [hw]
  have h9 : readU32 ((BARKER ++ [4]) ++ (packU32 a ++ [])) (BARKER_LENGTH + 1) =
      some a := readU32_append (BARKER ++ [4]) [] a ha
  have hred : ((BARKER ++ [4]) ++ (packU32 a ++ [])).drop (BARKER_LENGTH + 1 + 4) = [] := by
    apply List.drop_eq_nil_of_le
    simp [packU32, BARKER, BARKER_LENGTH]
  simp only [unwrap_ack, h9, Option.bind_eq_bind, Option.some_bind, hred,
    Option.pure_def]

/-! ### C1: codec round-trip -/

/-- C1: Codec round-trip.  For every packet type (0 reliable, 1 unreliable,
2 reliable-stream, 3 unreliable-stream) and every byte payload `p` (any list
of bytes, in particular payloads containing `BADFDAD`, `BADFDADZ` or the full
Barker), `Protocol.unwrap` applied to the corresponding `wrap_*` output
returns exactly `p` as the payload, the same message id and/or stream id
passed to wrap, and an empty redundant tail.  The bounds are the ranges in
which Python's `struct.pack('L', …)` accepts the ids and the size field. -/
theorem C1_roundtrip_codec (p : Bytes) (m sid : Nat)
    (hp : ∀ b ∈ p, b < 256) (hplen : p.length < 2 ^ 31)
    (hm : m < 2 ^ 32) (hsid : sid < 2 ^ 32) :
    unwrap (wrap_reliable p m) = some ⟨some p, some m, none, none, []⟩ ∧
    unwrap (wrap_unreliable p) = some ⟨some p, none, none, none, []⟩ ∧
    unwrap (wrap_reliable_stream p m sid) = some ⟨some p, some m, some sid, none, []⟩ ∧
    unwrap (wrap_unreliable_stream p sid) = some ⟨some p, none, some sid, none, []⟩ := by
  have h31 : (2 : Nat) ^ 31 = 2147483648 := by norm_num
  have h32 : (2 : Nat) ^ 32 = 4294967296 := by norm_num
  have hlen : (stuff_data p).length < 2 ^ 32 := by
    have := stuff_data_length_le p
    omega
  have hC : crc32 (stuff_data p) < 2 ^ 32 := crc32_lt (stuff_data_bytes_lt hp)
  have h0 := unwrap_wrap_reliable p m hm hlen hC
  have h1 := unwrap_wrap_unreliable p hlen hC
  have h2 := unwrap_wrap_reliable_stream p m sid hm hsid hlen hC
  have h3 := unwrap_wrap_unreliable_stream p sid hsid hlen hC
  rw [stuff_roundtrip] at h0 h1 h2 h3
  exact ⟨h0, h1, h2, h3⟩

/-- Witness for C1 at a payload containing `BADFDAD`, `BADFDADZ` and the full
Barker `BADFDADF`. -/
theorem C1_roundtrip_codec_witness :
    unwrap (wrap_reliable (BEFORE_STUFF ++ AFTER_STUFF ++ BARKER) 3) =
      some ⟨some (BEFORE_STUFF ++ AFTER_STUFF ++ BARKER), some 3, none, none, []⟩ ∧
    unwrap (wrap_unreliable (BEFORE_STUFF ++ AFTER_STUFF ++ BARKER)) =
      some ⟨some (BEFORE_STUFF ++ AFTER_STUFF ++ BARKER), none, none, none, []⟩ ∧
    unwrap (wrap_reliable_stream (BEFORE_STUFF ++ AFTER_STUFF ++ BARKER) 3 7771) =
      some ⟨some (BEFORE_STUFF ++ AFTER_STUFF ++ BARKER), some 3, some 7771, none, []⟩ ∧
    unwrap (wrap_unreliable_stream (BEFORE_STUFF ++ AFTER_STUFF ++ BARKER) 7771) =
      some ⟨some (BEFORE_STUFF ++ AFTER_STUFF ++ BARKER), none, some 7771, none, []⟩ :=
  C1_roundtrip_codec (BEFORE_STUFF ++ AFTER_STUFF ++ BARKER) 3 7771
    (by decide) (by decide) (by decide) (by decide)

/-! ### C7: frame layout -/

/-- C7: Frame layout.  Every `wrap_*` output starts with the 8-byte Barker,
then the 1-byte packet type at offset 8, then the type-specific fields in
order, every integer field a 4-byte little-endian u32 (read back by
`readU32`), the size field equal to the stuffed-payload length, the CRC field
equal to CRC-32 of the stuffed payload; an ACK frame is exactly
`Barker ‖ 4 ‖ acked_id`, 13 bytes, with no CRC. -/
theorem C7_frame_layout (p : Bytes) (m sid a : Nat)
    (hm : m < 2 ^ 32) (hsid : sid < 2 ^ 32) (ha : a < 2 ^ 32)
    (hlen : (stuff_data p).length < 2 ^ 32) (hC : crc32 (stuff_data p) < 2 ^ 32) :
    ((wrap_reliable p m).take 8 = BARKER ∧
     (wrap_reliable p m)[8]? = some 0 ∧
     readU32 (wrap_reliable p m) 9 = some m ∧
     readU32 (wrap_reliable p m) 13 = some (stuff_data p).length ∧
     ((wrap_reliable p m).drop 17).take (stuff_data p).length = stuff_data p ∧
     readU32 (wrap_reliable p m) (17 + (stuff_data p).length) =
       some (crc32 (stuff_data p)) ∧
     (wrap_reliable p m).length = 21 + (stuff_data p).length) ∧
    ((wrap_unreliable p).take 8 = BARKER ∧
     (wrap_unreliable p)[8]? = some 1 ∧
     readU32 (wrap_unreliable p) 9 = some (stuff_data p).length ∧
     ((wrap_unreliable p).drop 13).take (stuff_data p).length = stuff_data p ∧
     readU32 (wrap_unreliable p) (13 + (stuff_data p).length) =
       some (crc32 (stuff_data p)) ∧
     (wrap_unreliable p).length = 17 + (stuff_data p).length) ∧
    ((wrap_reliable_stream p m sid).take 8 = BARKER ∧
     (wrap_reliable_stream p m sid)[8]? = some 2 ∧
     readU32 (wrap_reliable_stream p m sid) 9 = some m ∧
     readU32 (wrap_reliable_stream p m sid) 13 = some sid ∧
     readU32 (wrap_reliable_stream p m sid) 17 = some (stuff_data p).length ∧
     ((wrap_reliable_stream p m sid).drop 21).take (stuff_data p).length =
       stuff_data p ∧
     readU32 (wrap_reliable_stream p m sid) (21 + (stuff_data p).length) =
       some (crc32 (stuff_data p)) ∧
     (wrap_reliable_stream p m sid).length = 25 + (stuff_data p).length) ∧
    ((wrap_unreliable_stream p sid).take 8 = BARKER ∧
     (wrap_unreliable_stream p sid)[8]? = some 3 ∧
     readU32 (wrap_unreliable_stream p sid) 9 = some sid ∧
     readU32 (wrap_unreliable_stream p sid) 13 = some (stuff_data p).length ∧
     ((wrap_unreliable_stream p sid).drop 17).take (stuff_data p).length =
       stuff_data p ∧
     readU32 (wrap_unreliable_stream p sid) (17 + (stuff_data p).length) =
       some (crc32 (stuff_data p)) ∧
     (wrap_unreliable_stream p sid).length = 21 + (stuff_data p).length) ∧
    (wrap_ack a = BARKER ++ [4] ++ packU32 a ∧
     (wrap_ack a).length = 13 ∧
     readU32 (wrap_ack a) 9 = some a) := by
  refine ⟨⟨?_, ?_, ?_, ?_, ?_, ?_, ?_⟩, ⟨?_, ?_, ?_, ?_, ?_, ?_⟩,
    ⟨?_, ?_, ?_, ?_, ?_, ?_, ?_, ?_⟩, ⟨?_, ?_, ?_, ?_, ?_, ?_, ?_⟩, ⟨rfl, ?_, ?_⟩⟩
  · exact List.take_left BARKER ([0] ++ (packU32 m ++ (packU32 (stuff_data p).length
      ++ (stuff_data p ++ packU32 (crc32 (stuff_data p))))))
  · exact getElem?_barker_append _ 0
  · exact readU32_append (BARKER ++ [0]) _ m hm
  · exact readU32_append ((BARKER ++ [0]) ++ packU32 m) _ (stuff_data p).length hlen
  · rw [show wrap_reliable p m =
        (((BARKER ++ [0]) ++ packU32 m) ++ packU32 (stuff_data p).length) ++
          (stuff_data p ++ packU32 (crc32 (stuff_data p))) from rfl]
    rw [drop_at _ _ (by simp only [List.length_append, packU32, List.length_cons, List.length_nil, BARKER] <;> omega)]
    exact List.take_left _ _
  · rw [show wrap_reliable p m =
        ((((BARKER ++ [0]) ++ packU32 m) ++ packU32 (stuff_data p).length) ++
          stuff_data p) ++ (packU32 (crc32 (stuff_data p)) ++ []) from rfl]
    exact readU32_at _ [] _ hC (by simp only [List.length_append, packU32, List.length_cons, List.length_nil, BARKER] <;> omega)
  · show (BARKER ++ [0] ++ packU32 m ++ packU32 (stuff_data p).length ++ stuff_data p
      ++ packU32 (crc32 (stuff_data p))).length = _
    simp only [List.length_append, packU32, List.length_cons, List.length_nil, BARKER]
    omega
  · exact List.take_left BARKER ([1] ++ (packU32 (stuff_data p).length
      ++ (stuff_data p ++ packU32 (crc32 (stuff_data p)))))
  · exact getElem?_barker_append _ 1
  · exact readU32_append (BARKER ++ [1]) _ (stuff_data p).length hlen
  · rw [show wrap_unreliable p =
        ((BARKER ++ [1]) ++ packU32 (stuff_data p).length) ++
          (stuff_data p ++ packU32 (crc32 (stuff_data p))) from rfl]
    rw [drop_at _ _ (by simp only [List.length_append, packU32, List.length_cons, List.length_nil, BARKER] <;> omega)]
    exact List.take_left _ _
  · rw [show wrap_unreliable p =
        (((BARKER ++ [1]) ++ packU32 (stuff_data p).length) ++ stuff_data p) ++
          (packU32 (crc32 (stuff_data p)) ++ []) from rfl]
    exact readU32_at _ [] _ hC (by simp only [List.length_append, packU32, List.length_cons, List.length_nil, BARKER] <;> omega)
  · show (BARKER ++ [1] ++ packU32 (stuff_data p).length ++ stuff_data p
      ++ packU32 (crc32 (stuff_data p))).length = _
    simp only [List.length_append, packU32, List.length_cons, List.length_nil, BARKER]
    omega
  · exact List.take_left BARKER ([2] ++ (packU32 m ++ (packU32 sid ++
      (packU32 (stuff_data p).length ++ (stuff_data p ++
        packU32 (crc32 (stuff_data p)))))))
  · exact getElem?_barker_append _ 2
  · exact readU32_append (BARKER ++ [2]) _ m hm
  · exact readU32_append ((BARKER ++ [2]) ++ packU32 m) _ sid hsid
  · exact readU32_append (((BARKER ++ [2]) ++ packU32 m) ++ packU32 sid) _
      (stuff_data p).length hlen
  · rw [show wrap_reliable_stream p m sid =
        (((((BARKER ++ [2]) ++ packU32 m) ++ packU32 sid) ++
          packU32 (stuff_data p).length)) ++
          (stuff_data p ++ packU32 (crc32 (stuff_data p))) from rfl]
    rw [drop_at _ _ (by simp only [List.length_append, packU32, List.length_cons, List.length_nil, BARKER] <;> omega)]
    exact List.take_left _ _
  · rw [show wrap_reliable_stream p m sid =
        ((((((BARKER ++ [2]) ++ packU32 m) ++ packU32 sid) ++
          packU32 (stuff_data p).length)) ++ stuff_data p) ++
          (packU32 (crc32 (stuff_data p)) ++ []) from rfl]
    exact readU32_at _ [] _ hC (by simp only [List.length_append, packU32, List.length_cons, List.length_nil, BARKER] <;> omega)
  · show (BARKER ++ [2] ++ packU32 m ++ packU32 sid ++ packU32 (stuff_data p).length
      ++ stuff_data p ++ packU32 (crc32 (stuff_data p))).length = _
    simp only [List.length_append, packU32, List.length_cons, List.length_nil, BARKER]
    omega
  · exact List.take_left BARKER ([3] ++ (packU32 sid ++
      (packU32 (stuff_data p).length ++ (stuff_data p ++
        packU32 (crc32 (stuff_data p))))))
  · exact getElem?_barker_append _ 3
  · exact readU32_append (BARKER ++ [3]) _ sid hsid
  · exact readU32_append ((BARKER ++ [3]) ++ packU32 sid) _ (stuff_data p).length hlen
  · rw [show wrap_unreliable_stream p sid =
        (((BARKER ++ [3]) ++ packU32 sid) ++ packU32 (stuff_data p).length) ++
          (stuff_data p ++ packU32 (crc32 (stuff_data p))) from rfl]
    rw [drop_at _ _ (by simp only [List.length_append, packU32, List.length_cons, List.length_nil, BARKER] <;> omega)]
    exact List.take_left _ _
  · rw [show wrap_unreliable_stream p sid =
        ((((BARKER ++ [3]) ++ packU32 sid) ++ packU32 (stuff_data p).length) ++
          stuff_data p) ++ (packU32 (crc32 (stuff_data p)) ++ []) from rfl]
    exact readU32_at _ [] _ hC (by simp only [List.length_append, packU32, List.length_cons, List.length_nil, BARKER] <;> omega)
  · show (BARKER ++ [3] ++ packU32 sid ++ packU32 (stuff_data p).length ++ stuff_data p
      ++ packU32 (crc32 (stuff_data p))).length = _
    simp only [List.length_append, packU32, List.length_cons, List.length_nil, BARKER]
    omega
  · show (BARKER ++ [4] ++ packU32 a).length = 13
    simp [packU32, BARKER]
  · exact readU32_append (BARKER ++ [4]) [] a ha

/-- Witness for C7 at a concrete frame of each type. -/
theorem C7_frame_layout_witness :
    ((wrap_reliable [1, 2, 3] 5).take 8 = BARKER ∧
     (wrap_reliable [1, 2, 3] 5)[8]? = some 0 ∧
     readU32 (wrap_reliable [1, 2, 3] 5) 9 = some 5 ∧
     readU32 (wrap_reliable [1, 2, 3] 5) 13 = some (stuff_data [1, 2, 3]).length ∧
     ((wrap_reliable [1, 2, 3] 5).drop 17).take (stuff_data [1, 2, 3]).length =
       stuff_data [1, 2, 3] ∧
     readU32 (wrap_reliable [1, 2, 3] 5) (17 + (stuff_data [1, 2, 3]).length) =
       some (crc32 (stuff_data [1, 2, 3])) ∧
     (wrap_reliable [1, 2, 3] 5).length = 21 + (stuff_data [1, 2, 3]).length) ∧
    ((wrap_unreliable [1, 2, 3]).take 8 = BARKER ∧
     (wrap_unreliable [1, 2, 3])[8]? = some 1 ∧
     readU32 (wrap_unreliable [1, 2, 3]) 9 = some (stuff_data [1, 2, 3]).length ∧
     ((wrap_unreliable [1, 2, 3]).drop 13).take (stuff_data [1, 2, 3]).length =
       stuff_data [1, 2, 3] ∧
     readU32 (wrap_unreliable [1, 2, 3]) (13 + (stuff_data [1, 2, 3]).length) =
       some (crc32 (stuff_data [1, 2, 3])) ∧
     (wrap_unreliable [1, 2, 3]).length = 17 + (stuff_data [1, 2, 3]).length) ∧
    ((wrap_reliable_stream [1, 2, 3] 5 7771).take 8 = BARKER ∧
     (wrap_reliable_stream [1, 2, 3] 5 7771)[8]? = some 2 ∧
     readU32 (wrap_reliable_stream [1, 2, 3] 5 7771) 9 = some 5 ∧
     readU32 (wrap_reliable_stream [1, 2, 3] 5 7771) 13 = some 7771 ∧
     readU32 (wrap_reliable_stream [1, 2, 3] 5 7771) 17 =
       some (stuff_data [1, 2, 3]).length ∧
     ((wrap_reliable_stream [1, 2, 3] 5 7771).drop 21).take
       (stuff_data [1, 2, 3]).length = stuff_data [1, 2, 3] ∧
     readU32 (wrap_reliable_stream [1, 2, 3] 5 7771)
       (21 + (stuff_data [1, 2, 3]).length) = some (crc32 (stuff_data [1, 2, 3])) ∧
     (wrap_reliable_stream [1, 2, 3] 5 7771).length =
       25 + (stuff_data [1, 2, 3]).length) ∧
    ((wrap_unreliable_stream [1, 2, 3] 7771).take 8 = BARKER ∧
     (wrap_unreliable_stream [1, 2, 3] 7771)[8]? = some 3 ∧
     readU32 (wrap_unreliable_stream [1, 2, 3] 7771) 9 = some 7771 ∧
     readU32 (wrap_unreliable_stream [1, 2, 3] 7771) 13 =
       some (stuff_data [1, 2, 3]).length ∧
     ((wrap_unreliable_stream [1, 2, 3] 7771).drop 17).take
       (stuff_data [1, 2, 3]).length = stuff_data [1, 2, 3] ∧
     readU32 (wrap_unreliable_stream [1, 2, 3] 7771)
       (17 + (stuff_data [1, 2, 3]).length) = some (crc32 (stuff_data [1, 2, 3])) ∧
     (wrap_unreliable_stream [1, 2, 3] 7771).length =
       21 + (stuff_data [1, 2, 3]).length) ∧
    (wrap_ack 9 = BARKER ++ [4] ++ packU32 9 ∧
     (wrap_ack 9).length = 13 ∧
     readU32 (wrap_ack 9) 9 = some 9) :=
  C7_frame_layout [1, 2, 3] 5 7771 9 (by decide) (by decide) (by decide)
    (by decide) (by decide)

/-! ### C10: header fields are not integrity-protected -/

/-- C10: Header fields are not integrity-protected.  Replacing the 4
message-id bytes (offsets 9–12) of a type-0 frame with the encoding of a
different id `m2` yields a buffer that `unwrap` parses successfully,
returning the original payload with the corrupted id `m2` — the CRC covers
only the stuffed payload. -/
theorem C10_header_not_protected (p : Bytes) (m m2 : Nat)
    (hp : ∀ b ∈ p, b < 256) (hplen : p.length < 2 ^ 31)
    (hm : m < 2 ^ 32) (hm2 : m2 < 2 ^ 32) :
    unwrap ((wrap_reliable p m).take 9 ++ packU32 m2 ++ (wrap_reliable p m).drop 13) =
      some ⟨some p, some m2, none, none, []⟩ := by
  have h31 : (2 : Nat) ^ 31 = 2147483648 := by norm_num
  have h32 : (2 : Nat) ^ 32 = 4294967296 := by norm_num
  have hlen : (stuff_data p).length < 2 ^ 32 := by
    have := stuff_data_length_le p
    omega
  have hC : crc32 (stuff_data p) < 2 ^ 32 := crc32_lt (stuff_data_bytes_lt hp)
  have htake : (wrap_reliable p m).take 9 = BARKER ++ [0] := by
    rw [show wrap_reliable p m = (BARKER ++ [0]) ++ (packU32 m ++
      (packU32 (stuff_data p).length ++ (stuff_data p ++
        packU32 (crc32 (stuff_data p))))) from rfl]
    exact take_at _ _ (by simp only [List.length_append, packU32, List.length_cons, List.length_nil, BARKER] <;> omega)
  have hdrop : (wrap_reliable p m).drop 13 = packU32 (stuff_data p).length ++
      (stuff_data p ++ packU32 (crc32 (stuff_data p))) := by
    rw [show wrap_reliable p m = ((BARKER ++ [0]) ++ packU32 m) ++
      (packU32 (stuff_data p).length ++ (stuff_data p ++
        packU32 (crc32 (stuff_data p)))) from rfl]
    exact drop_at _ _ (by simp only [List.length_append, packU32, List.length_cons, List.length_nil, BARKER] <;> omega)
  rw [htake, hdrop]
  show unwrap (wrap_reliable p m2) = _
  rw [unwrap_wrap_reliable p m2 hm2 hlen hC, stuff_roundtrip]

/-- Witness for C10: swapping the id bytes of a concrete frame. -/
theorem C10_header_not_protected_witness :
    unwrap ((wrap_reliable [72, 105] 1).take 9 ++ packU32 7 ++
      (wrap_reliable [72, 105] 1).drop 13) =
      some ⟨some [72, 105], some 7, none, none, []⟩ :=
  C10_header_not_protected [72, 105] 1 7 (by decide) (by decide) (by decide) (by decide)

/-! ### C5: characterisation of unwrap failure -/

theorem readU32_eq_none_iff (d : Bytes) (i : Nat) :
    readU32 d i = none ↔ d.length < i + 4 := by
  unfold readU32
  rcases h0 : d[i]? with _ | v0
  · have hl := List.getElem?_eq_none_iff.mp h0
    simp only [h0]
    exact iff_of_true (by trivial) (by omega)
  · rcases h1 : d[i+1]? with _ | v1
    · have hl := List.getElem?_eq_none_iff.mp h1
      simp only [h0, h1]
      exact iff_of_true (by trivial) (by omega)
    · rcases h2 : d[i+2]? with _ | v2
      · have hl := List.getElem?_eq_none_iff.mp h2
        simp only [h0, h1, h2]
        exact iff_of_true (by trivial) (by omega)
      · rcases h3 : d[i+3]? with _ | v3
        · have hl := List.getElem?_eq_none_iff.mp h3
          simp only [h0, h1, h2, h3]
          exact iff_of_true (by trivial) (by omega)
        · have hl : i + 3 < d.length := (List.getElem?_eq_some.mp h3).1
          simp only [h0, h1, h2, h3]
          exact iff_of_false (by simp) (by omega)

theorem readU32_some_bound {d : Bytes} {i L : Nat} (h : readU32 d i = some L) :
    i + 4 ≤ d.length := by
  by_contra hc
  rw [(readU32_eq_none_iff d i).mpr (by omega)] at h
  simp at h

/-- `_extract_message` fails exactly when the size field is truncated, the
payload or CRC field is truncated, or the CRC does not match. -/
theorem extract_message_eq_none_iff (d : Bytes) (i : Nat) :
    extract_message d i = none ↔
      d.length < i + 4 ∨
      (∃ L, readU32 d i = some L ∧ d.length < i + 8 + L) ∨
      (∃ L, readU32 d i = some L ∧ i + 8 + L ≤ d.length ∧
        readU32 d (i + 4 + L) ≠ some (crc32 ((d.drop (i + 4)).take L))) := by
  unfold extract_message
  rcases hL : readU32 d i with _ | L
  · simp only [Option.bind_eq_bind, Option.none_bind]
    exact iff_of_true (by trivial) (Or.inl ((readU32_eq_none_iff d i).mp hL))
  · simp only [Option.bind_eq_bind, Option.some_bind]
    have hge := readU32_some_bound hL
    rcases hC : readU32 d (i + 4 + L) with _ | C
    · have hlen := (readU32_eq_none_iff d (i + 4 + L)).mp hC
      simp only [hC, Option.none_bind]
      exact iff_of_true (by trivial) (Or.inr (Or.inl ⟨L, rfl, by omega⟩))
    · have hge2 := readU32_some_bound hC
      simp only [hC, Option.some_bind]
      by_cases hcrc : C = crc32 ((d.drop (i + 4)).take L)
      · rw [if_pos hcrc]
        simp only [Option.pure_def]
        refine iff_of_false (by simp) ?_
        rintro (h | ⟨L', hL', hlen⟩ | ⟨L', hL', hble, hne⟩)
        · omega
        · have := Option.some.inj hL'
          omega
        · have hLL : L = L' := Option.some.inj hL'
          subst hLL
          exact hne (by rw [hC, hcrc])
      · rw [if_neg hcrc]
        refine iff_of_true (by trivial) (Or.inr (Or.inr ⟨L, rfl, by omega, ?_⟩))
        rw [hC]
        simp [hcrc]

theorem unwrap_reliable_eq_none_iff (d : Bytes) :
    unwrap_reliable d = none ↔
      d.length < 17 ∨
      (∃ L, readU32 d 13 = some L ∧ d.length < 21 + L) ∨
      (∃ L, readU32 d 13 = some L ∧ 21 + L ≤ d.length ∧
        readU32 d (17 + L) ≠ some (crc32 ((d.drop 17).take L))) := by
  have hiff := extract_message_eq_none_iff d 13
  simp only [Nat.reduceAdd] at hiff
  unfold unwrap_reliable
  simp only [BARKER_LENGTH, Nat.reduceAdd]
  rcases h9 : readU32 d 9 with _ | m
  · have hl := (readU32_eq_none_iff d 9).mp h9
    simp only [Option.bind_eq_bind, Option.none_bind]
    exact iff_of_true (by trivial) (Or.inl (by omega))
  · simp only [Option.bind_eq_bind, Option.some_bind]
    rcases hE : extract_message d 13 with _ | pr
    · simp only [Option.none_bind]
      exact iff_of_true (by trivial) (hiff.mp hE)
    · rcases pr with ⟨msg, red⟩
      simp only [Option.some_bind, Option.pure_def]
      refine iff_of_false (by simp) ?_
      intro hc
      rw [hiff.mpr hc] at hE
      exact Option.noConfusion hE

theorem unwrap_unreliable_eq_none_iff (d : Bytes) :
    unwrap_unreliable d = none ↔
      d.length < 13 ∨
      (∃ L, readU32 d 9 = some L ∧ d.length < 17 + L) ∨
      (∃ L, readU32 d 9 = some L ∧ 17 + L ≤ d.length ∧
        readU32 d (13 + L) ≠ some (crc32 ((d.drop 13).take L))) := by
  have hiff := extract_message_eq_none_iff d 9
  simp only [Nat.reduceAdd] at hiff
  unfold unwrap_unreliable
  simp only [BARKER_LENGTH, Nat.reduceAdd]
  rcases hE : extract_message d 9 with _ | pr
  · simp only [Option.bind_eq_bind, Option.none_bind]
    exact iff_of_true (by trivial) (hiff.mp hE)
  · rcases pr with ⟨msg, red⟩
    simp only [Option.bind_eq_bind, Option.some_bind, Option.pure_def]
    refine iff_of_false (by simp) ?_
    intro hc
    rw [hiff.mpr hc] at hE
    exact Option.noConfusion hE

theorem unwrap_reliable_stream_eq_none_iff (d : Bytes) :
    unwrap_reliable_stream d = none ↔
      d.length < 21 ∨
      (∃ L, readU32 d 17 = some L ∧ d.length < 25 + L) ∨
      (∃ L, readU32 d 17 = some L ∧ 25 + L ≤ d.length ∧
        readU32 d (21 + L) ≠ some (crc32 ((d.drop 21).take L))) := by
  have hiff := extract_message_eq_none_iff d 17
  simp only [Nat.reduceAdd] at hiff
  unfold unwrap_reliable_stream
  simp only [BARKER_LENGTH, Nat.reduceAdd]
  rcases h9 : readU32 d 9 with _ | m
  · have hl := (readU32_eq_none_iff d 9).mp h9
    simp only [Option.bind_eq_bind, Option.none_bind]
    exact iff_of_true (by trivial) (Or.inl (by omega))
  · simp only [Option.bind_eq_bind, Option.some_bind]
    rcases h13 : readU32 d 13 with _ | sid
    · have hl := (readU32_eq_none_iff d 13).mp h13
      simp only [Option.none_bind]
      exact iff_of_true (by trivial) (Or.inl (by omega))
    · simp only [Option.some_bind]
      rcases hE : extract_message d 17 with _ | pr
      · simp only [Option.none_bind]
        exact iff_of_true (by trivial) (hiff.mp hE)
      · rcases pr with ⟨msg, red⟩
        simp only [Option.some_bind, Option.pure_def]
        refine iff_of_false (by simp) ?_
        intro hc
        rw [hiff.mpr hc] at hE
        exact Option.noConfusion hE

theorem unwrap_unreliable_stream_eq_none_iff (d : Bytes) :
    unwrap_unreliable_stream d = none ↔
      d.length < 17 ∨
      (∃ L, readU32 d 13 = some L ∧ d.length < 21 + L) ∨
      (∃ L, readU32 d 13 = some L ∧ 21 + L ≤ d.length ∧
        readU32 d (17 + L) ≠ some (crc32 ((d.drop 17).take L))) := by
  have hiff := extract_message_eq_none_iff d 13
  simp only [Nat.reduceAdd] at hiff
  unfold unwrap_unreliable_stream
  simp only [BARKER_LENGTH, Nat.reduceAdd]
  rcases h9 : readU32 d 9 with _ | sid
  · have hl := (readU32_eq_none_iff d 9).mp h9
    simp only [Option.bind_eq_bind, Option.none_bind]
    exact iff_of_true (by trivial) (Or.inl (by omega))
  · simp only [Option.bind_eq_bind, Option.some_bind]
    rcases hE : extract_message d 13 with _ | pr
    · simp only [Option.none_bind]
      exact iff_of_true (by trivial) (hiff.mp hE)
    · rcases pr with ⟨msg, red⟩
      simp only [Option.some_bind, Option.pure_def]
      refine iff_of_false (by simp) ?_
      intro hc
      rw [hiff.mpr hc] at hE
      exact Option.noConfusion hE

theorem unwrap_ack_eq_none_iff (d : Bytes) :
    unwrap_ack d = none ↔ d.length < 13 := by
  unfold unwrap_ack
  simp only [BARKER_LENGTH, Nat.reduceAdd]
  rcases h9 : readU32 d 9 with _ | a
  · simp only [Option.bind_eq_bind, Option.none_bind]
    exact iff_of_true (by trivial) (by have := (readU32_eq_none_iff d 9).mp h9; omega)
  · simp only [Option.bind_eq_bind, Option.some_bind, Option.pure_def]
    exact iff_of_false (by simp) (by have := readU32_some_bound h9; omega)

/-- Byte offset of the size field for packet types 0–3 (type 0: after the
message id; type 1: right after the type byte; type 2: after message and
stream ids; type 3: after the stream id). -/
def type_size_offset (t : Nat) : Nat :=
  if t = 0 then 13 else if t = 1 then 9 else if t = 2 then 17 else 13

/-- Transcription of claim C5's failure conditions: the buffer does not start
with the Barker at offset 0, or the packet-type byte is missing or not in
0..4, or the header (including the ACK id for type 4) or the CRC field is
truncated, or the CRC field does not equal CRC-32 of the stuffed payload
bytes. -/
def bad_packet_spec (d : Bytes) : Prop :=
  ¬ (BARKER <+: d) ∨
  d[BARKER_LENGTH]? = none ∨
  (∃ t, d[BARKER_LENGTH]? = some t ∧ 5 ≤ t) ∨
  (d[BARKER_LENGTH]? = some 4 ∧ d.length < 13) ∨
  (∃ t, d[BARKER_LENGTH]? = some t ∧ t ≤ 3 ∧
    (d.length < type_size_offset t + 4 ∨
     (∃ L, readU32 d (type_size_offset t) = some L ∧
       d.length < type_size_offset t + 8 + L) ∨
     (∃ L, readU32 d (type_size_offset t) = some L ∧
       type_size_offset t + 8 + L ≤ d.length ∧
       readU32 d (type_size_offset t + 4 + L) ≠
         some (crc32 ((d.drop (type_size_offset t + 4)).take L)))))

/-- C5: Unwrap failure condition.  `Protocol.unwrap` raises its single "bad
packet" `ValueError` (modelled by `none`; the `except Exception` handler
converts every internal failure into that one error, so no other exception
kind escapes) exactly when the buffer does not start with the Barker, or the
packet-type byte is missing or not in 0..4, or the header or CRC field is
truncated, or the CRC field does not equal CRC-32 of the stuffed payload;
otherwise it returns the parsed tuple. -/
theorem C5_unwrap_failure_condition (d : Bytes) :
    unwrap d = none ↔ bad_packet_spec d := by
  by_cases hb : BARKER.isPrefixOf d
  · have hb' : BARKER <+: d := List.isPrefixOf_iff_prefix.mp hb
    unfold unwrap
    rw [if_pos hb]
    split
    · next h8 =>
      rw [unwrap_reliable_eq_none_iff]
      constructor
      · intro hc
        exact Or.inr (Or.inr (Or.inr (Or.inr ⟨0, h8, by omega, hc⟩)))
      · rintro (h | h | ⟨t, ht, ht5⟩ | ⟨h4, _⟩ | ⟨t, ht, ht3, hc⟩)
        · exact absurd hb' h
        · rw [h8] at h; exact Option.noConfusion h
        · rw [h8] at ht; have := Option.some.inj ht; omega
        · rw [h8] at h4; have := Option.some.inj h4; omega
        · rw [h8] at ht
          have htt : (0 : Nat) = t := Option.some.inj ht
          subst htt
          exact hc
    · next h8 =>
      rw [unwrap_unreliable_eq_none_iff]
      constructor
      · intro hc
        exact Or.inr (Or.inr (Or.inr (Or.inr ⟨1, h8, by omega, hc⟩)))
      · rintro (h | h | ⟨t, ht, ht5⟩ | ⟨h4, _⟩ | ⟨t, ht, ht3, hc⟩)
        · exact absurd hb' h
        · rw [h8] at h; exact Option.noConfusion h
        · rw [h8] at ht; have := Option.some.inj ht; omega
        · rw [h8] at h4; have := Option.some.inj h4; omega
        · rw [h8] at ht
          have htt : (1 : Nat) = t := Option.some.inj ht
          subst htt
          exact hc
    · next h8 =>
      rw [unwrap_reliable_stream_eq_none_iff]
      constructor
      · intro hc
        exact Or.inr (Or.inr (Or.inr (Or.inr ⟨2, h8, by omega, hc⟩)))
      · rintro (h | h | ⟨t, ht, ht5⟩ | ⟨h4, _⟩ | ⟨t, ht, ht3, hc⟩)
        · exact absurd hb' h
        · rw [h8] at h; exact Option.noConfusion h
        · rw [h8] at ht; have := Option.some.inj ht; omega
        · rw [h8] at h4; have := Option.some.inj h4; omega
        · rw [h8] at ht
          have htt : (2 : Nat) = t := Option.some.inj ht
          subst htt
          exact hc
    · next h8 =>
      rw [unwrap_unreliable_stream_eq_none_iff]
      constructor
      · intro hc
        exact Or.inr (Or.inr (Or.inr (Or.inr ⟨3, h8, by omega, hc⟩)))
      · rintro (h | h | ⟨t, ht, ht5⟩ | ⟨h4, _⟩ | ⟨t, ht, ht3, hc⟩)
        · exact absurd hb' h
        · rw [h8] at h; exact Option.noConfusion h
        · rw [h8] at ht; have := Option.some.inj ht; omega
        · rw [h8] at h4; have := Option.some.inj h4; omega
        · rw [h8] at ht
          have htt : (3 : Nat) = t := Option.some.inj ht
          subst htt
          exact hc
    · next h8 =>
      rw [unwrap_ack_eq_none_iff]
      constructor
      · intro hc
        exact Or.inr (Or.inr (Or.inr (Or.inl ⟨h8, hc⟩)))
      · rintro (h | h | ⟨t, ht, ht5⟩ | ⟨h4, hlen⟩ | ⟨t, ht, ht3, hc⟩)
        · exact absurd hb' h
        · rw [h8] at h; exact Option.noConfusion h
        · rw [h8] at ht; have := Option.some.inj ht; omega
        · exact hlen
        · rw [h8] at ht; have := Option.some.inj ht; omega
    · next x h0 h1 h2 h3 h4 =>
      refine iff_of_true (by trivial) ?_
      rcases h8 : d[BARKER_LENGTH]? with _ | t
      · exact Or.inr (Or.inl h8)
      · refine Or.inr (Or.inr (Or.inl ⟨t, h8, ?_⟩))
        by_contra hlt
        interval_cases t
        · exact h0 h8
        · exact h1 h8
        · exact h2 h8
        · exact h3 h8
        · exact h4 h8
  · have hb' : ¬ (BARKER <+: d) := fun h => hb (List.isPrefixOf_iff_prefix.mpr h)
    unfold unwrap
    rw [if_neg hb]
    exact iff_of_true (by trivial) (Or.inl hb')

/-! ### The peer engine: `AbstractP2PClient` -/

/-- `AbstractP2PClient.FILE_TRANSFER_STREAMS`. -/
def FILE_TRANSFER_STREAMS : List Nat := [7771, 7772, 7773, 7774]

/-- Python dict assignment `d[k] = v` on an insertion-ordered association
list: updates an existing key in place, else appends a new entry.  Note it
never raises `KeyError`. -/
def alistSet {α : Type} (l : List (Nat × α)) (k : Nat) (v : α) : List (Nat × α) :=
  match l with
  | [] => [(k, v)]
  | (k', v') :: t => if k' = k then (k, v) :: t else (k', v') :: alistSet t k v

/-- Python dict lookup `d[k]` as an option (`none` models `KeyError`). -/
def alistGet? {α : Type} (l : List (Nat × α)) (k : Nat) : Option α :=
  match l with
  | [] => none
  | (k', v') :: t => if k' = k then some v' else alistGet? t k

/-- Observable actions of the receive-side handler, in program order.
The four message upcalls carry exactly what Python passes them (the
`message` component of the unwrap tuple, which is `None` for ACK frames). -/
inductive Action where
  | peerSend (frame : Bytes)
  | onReliableMessage (message : Option Bytes)
  | onUnreliableMessage (message : Option Bytes)
  | onReliableStreamMessage (message : Option Bytes) (streamId : Nat)
  | onUnreliableStreamMessage (message : Option Bytes) (streamId : Nat)
  | onFile (filename : Bytes) (fileData : Bytes)
  | spawnHandleFileChunks (streamId chunkIndex : Nat)
  | logInvalidIsLast
  | pyError
deriving Repr, DecidableEq

/-- The receive-side mutable state of `AbstractP2PClient`: the message-id
counter, `_message_id_to_was_acked`, the keys of
`_messages_ids_that_have_been_received`, and `_file_stream_id_to_chunks`. -/
structure ClientState where
  nextMessageId : Nat
  messageIdToWasAcked : List (Nat × Bool)
  messagesIdsReceived : List Nat
  fileStreamChunks : List (Nat × List (Nat × Bytes))
deriving Repr, DecidableEq

/-- The state built by `__init__`. -/
def initial_state : ClientState :=
  ⟨0, [], [], FILE_TRANSFER_STREAMS.map (fun sid => (sid, []))⟩

/-- The non-ACK part of `_handle_unwrapped_message` (everything after the
`if acked_message_id:` early return).  For a reliable file-stream chunk,
`struct.unpack('L', message[:4])` on a message shorter than 4 bytes or
`message[4]` out of range raises out of the handler (`Action.pyError`); a
`None` message there raises a `TypeError` the same way. -/
def handle_rest (s : ClientState) (u : Unwrapped) : ClientState × List Action :=
  match u.messageId with
  | none =>
    match u.streamId with
    | none => (s, [Action.onUnreliableMessage u.message])
    | some sid => (s, [Action.onUnreliableStreamMessage u.message sid])
  | some mid =>
    let ack := Action.peerSend (wrap_ack mid)
    if mid ∈ s.messagesIdsReceived then
      (s, [ack])
    else
      let s' := { s with messagesIdsReceived := s.messagesIdsReceived ++ [mid] }
      match u.streamId with
      | none => (s', [ack, Action.onReliableMessage u.message])
      | some sid =>
        if sid ∈ FILE_TRANSFER_STREAMS then
          match u.message with
          | none => (s', [ack, Action.pyError])
          | some msg =>
            match readU32 msg 0, msg[4]? with
            | some chunkIndex, some lastByte =>
              if lastByte = 48 then
                ({ s' with fileStreamChunks :=
                    (alistSet s'.fileStreamChunks sid
                      (alistSet ((alistGet? s'.fileStreamChunks sid).getD [])
                        chunkIndex (msg.drop 5))) }, [ack])
              else if lastByte = 49 then
                (s', [ack, Action.spawnHandleFileChunks sid chunkIndex])
              else
                (s', [ack, Action.logInvalidIsLast])
            | _, _ => (s', [ack, Action.pyError])
        else
          (s', [ack, Action.onReliableStreamMessage u.message sid])

/-- `AbstractP2PClient._handle_unwrapped_message`.  `if acked_message_id:`
is Python truthiness — both `None` and `0` fail the test and fall through.
In the ACK branch, `self._message_id_to_was_acked[acked_message_id] = True`
is a dict assignment: it never raises `KeyError`, so the
`except KeyError: print(...)` handler is dead code and an unknown id
silently creates a new entry. -/
def handle_unwrapped_message (s : ClientState) (u : Unwrapped) :
    ClientState × List Action :=
  match u.ackedMessageId with
  | some a =>
    if a ≠ 0 then
      ({ s with messageIdToWasAcked := alistSet s.messageIdToWasAcked a true }, [])
    else
      handle_rest s u
  | none => handle_rest s u

/-- Deliver the same unwrapped frame `n` times in a row, concatenating the
emitted actions. -/
def handleN (s : ClientState) (u : Unwrapped) : Nat → ClientState × List Action
  | 0 => (s, [])
  | n + 1 =>
    let p := handle_unwrapped_message s u
    let q := handleN p.1 u n
    (q.1, p.2 ++ q.2)

/-! ### C2: dedup under retransmission with unconditional ACK -/

theorem handle_already_received (s : ClientState) (u : Unwrapped) (mid : Nat)
    (hmid : u.messageId = some mid) (hack : u.ackedMessageId = none)
    (hmem : mid ∈ s.messagesIdsReceived) :
    handle_unwrapped_message s u = (s, [Action.peerSend (wrap_ack mid)]) := by
  simp only [handle_unwrapped_message, handle_rest, hack, hmid, if_pos hmem]

theorem handle_new_marks (s : ClientState) (u : Unwrapped) (mid : Nat)
    (hmid : u.messageId = some mid) (hack : u.ackedMessageId = none)
    (hnew : mid ∉ s.messagesIdsReceived) :
    (handle_unwrapped_message s u).1.messagesIdsReceived =
      s.messagesIdsReceived ++ [mid] ∧
    ∃ rest, (handle_unwrapped_message s u).2 =
      Action.peerSend (wrap_ack mid) :: rest := by
  simp only [handle_unwrapped_message, handle_rest, hack, hmid, if_neg hnew]
  rcases u.streamId with _ | sid
  · exact ⟨rfl, _, rfl⟩
  · simp only []
    by_cases hfs : sid ∈ FILE_TRANSFER_STREAMS
    · rw [if_pos hfs]
      rcases u.message with _ | msg
      · exact ⟨rfl, _, rfl⟩
      · simp only []
        rcases readU32 msg 0 with _ | ci <;> rcases msg[4]? with _ | lb
        · exact ⟨rfl, _, rfl⟩
        · exact ⟨rfl, _, rfl⟩
        · exact ⟨rfl, _, rfl⟩
        · refine ⟨?_, ?_⟩
          · split
            · split
              · rfl
              · split <;> rfl
            · rename_i hcontra
              exact (hcontra ci lb rfl rfl).elim
          · split
            · split
              · exact ⟨_, rfl⟩
              · split
                · exact ⟨_, rfl⟩
                · exact ⟨_, rfl⟩
            · rename_i hcontra
              exact (hcontra ci lb rfl rfl).elim
    · rw [if_neg hfs]
      exact ⟨rfl, _, rfl⟩

/-- C2: Dedup under retransmission with unconditional ACK.  Processing the
same reliable frame (message id `mid`, not an ACK, not yet received) `N ≥ 1`
times sends the ACK frame for `mid` on every one of the `N` deliveries —
deliveries after the first do nothing else — and invokes the corresponding
upcall (`on_reliable_message`, `on_reliable_stream_message`, the file-chunk
spawn, or the file-chunk store) exactly once, on the first delivery. -/
theorem C2_dedup_unconditional_ack (s : ClientState) (u : Unwrapped) (mid N : Nat)
    (hmid : u.messageId = some mid) (hack : u.ackedMessageId = none)
    (hnew : mid ∉ s.messagesIdsReceived) (hN : 1 ≤ N) :
    (handleN s u N).2 =
      (handle_unwrapped_message s u).2 ++
        List.replicate (N - 1) (Action.peerSend (wrap_ack mid)) ∧
    (handle_unwrapped_message s u).2.head? =
      some (Action.peerSend (wrap_ack mid)) ∧
    (u.streamId = none →
      (handle_unwrapped_message s u).2 =
        [Action.peerSend (wrap_ack mid), Action.onReliableMessage u.message]) ∧
    (∀ sid, u.streamId = some sid → sid ∉ FILE_TRANSFER_STREAMS →
      (handle_unwrapped_message s u).2 =
        [Action.peerSend (wrap_ack mid),
         Action.onReliableStreamMessage u.message sid]) ∧
    (∀ sid msg ci, u.streamId = some sid → sid ∈ FILE_TRANSFER_STREAMS →
      u.message = some msg → readU32 msg 0 = some ci → msg[4]? = some 49 →
      (handle_unwrapped_message s u).2 =
        [Action.peerSend (wrap_ack mid), Action.spawnHandleFileChunks sid ci]) ∧
    (∀ sid msg ci, u.streamId = some sid → sid ∈ FILE_TRANSFER_STREAMS →
      u.message = some msg → readU32 msg 0 = some ci → msg[4]? = some 48 →
      (handle_unwrapped_message s u).2 = [Action.peerSend (wrap_ack mid)]) := by
  obtain ⟨hmark, rest, hrest⟩ := handle_new_marks s u mid hmid hack hnew
  have hmem1 : mid ∈ (handle_unwrapped_message s u).1.messagesIdsReceived := by
    rw [hmark]; simp
  have hrep : ∀ k s1, mid ∈ s1.messagesIdsReceived →
      handleN s1 u k = (s1, List.replicate k (Action.peerSend (wrap_ack mid))) := by
    intro k
    induction k with
    | zero => intro s1 h1; rfl
    | succ k ih =>
      intro s1 h1
      simp only [handleN, handle_already_received s1 u mid hmid hack h1, ih s1 h1,
        List.replicate_succ]
      rfl
  refine ⟨?_, ?_, ?_, ?_, ?_, ?_⟩
  · rcases N with _ | n
    · omega
    · simp only [handleN, hrep n _ hmem1, Nat.add_sub_cancel]
  · rw [hrest]; rfl
  · intro hsid
    simp only [handle_unwrapped_message, handle_rest, hack, hmid, if_neg hnew, hsid]
  · intro sid hsid hfs
    simp only [handle_unwrapped_message, handle_rest, hack, hmid, if_neg hnew, hsid,
      if_neg hfs]
  · intro sid msg ci hsid hfs hmsg hci h49
    simp only [handle_unwrapped_message, handle_rest, hack, hmid, if_neg hnew, hsid,
      if_pos hfs, hmsg, hci, h49]
    simp
  · intro sid msg ci hsid hfs hmsg hci h48
    simp only [handle_unwrapped_message, handle_rest, hack, hmid, if_neg hnew, hsid,
      if_pos hfs, hmsg, hci, h48]
    simp

/-- Witness for C2: a fresh reliable frame delivered three times sends three
ACKs and one `on_reliable_message` upcall. -/
theorem C2_dedup_unconditional_ack_witness :
    (handleN initial_state ⟨some [7, 8], some 5, none, none, []⟩ 3).2 =
      (handle_unwrapped_message initial_state ⟨some [7, 8], some 5, none, none, []⟩).2 ++
        List.replicate 2 (Action.peerSend (wrap_ack 5)) ∧
    (handle_unwrapped_message initial_state
        ⟨some [7, 8], some 5, none, none, []⟩).2.head? =
      some (Action.peerSend (wrap_ack 5)) ∧
    ((⟨some [7, 8], some 5, none, none, []⟩ : Unwrapped).streamId = none →
      (handle_unwrapped_message initial_state ⟨some [7, 8], some 5, none, none, []⟩).2 =
        [Action.peerSend (wrap_ack 5), Action.onReliableMessage (some [7, 8])]) ∧
    (∀ sid, (⟨some [7, 8], some 5, none, none, []⟩ : Unwrapped).streamId = some sid →
      sid ∉ FILE_TRANSFER_STREAMS →
      (handle_unwrapped_message initial_state ⟨some [7, 8], some 5, none, none, []⟩).2 =
        [Action.peerSend (wrap_ack 5),
         Action.onReliableStreamMessage (some [7, 8]) sid]) ∧
    (∀ sid msg ci,
      (⟨some [7, 8], some 5, none, none, []⟩ : Unwrapped).streamId = some sid →
      sid ∈ FILE_TRANSFER_STREAMS → some [7, 8] = some msg →
      readU32 msg 0 = some ci → msg[4]? = some 49 →
      (handle_unwrapped_message initial_state ⟨some [7, 8], some 5, none, none, []⟩).2 =
        [Action.peerSend (wrap_ack 5), Action.spawnHandleFileChunks sid ci]) ∧
    (∀ sid msg ci,
      (⟨some [7, 8], some 5, none, none, []⟩ : Unwrapped).streamId = some sid →
      sid ∈ FILE_TRANSFER_STREAMS → some [7, 8] = some msg →
      readU32 msg 0 = some ci → msg[4]? = some 48 →
      (handle_unwrapped_message initial_state ⟨some [7, 8], some 5, none, none, []⟩).2 =
        [Action.peerSend (wrap_ack 5)]) :=
  C2_dedup_unconditional_ack initial_state ⟨some [7, 8], some 5, none, none, []⟩ 5 3
    rfl rfl (by decide) (by decide)

/-! ### C4: unknown ACK (code bug: the dict assignment creates an entry) -/

/-- C4 (code-bug evidence): an ACK frame for id 5 handled by a peer that
never sent any message (empty outstanding-ACK table) silently creates the
entry `5 ↦ True` in `_message_id_to_was_acked` and performs no action at all
— in particular nothing is logged.  The claim (and spec §7) say the unknown
ACK is logged and the table left unchanged; the `except KeyError` handler
meant to do that is dead code because a Python dict assignment never raises
`KeyError`. -/
theorem C4_unknown_ack_creates_entry :
    handle_unwrapped_message initial_state ⟨none, none, none, some 5, []⟩ =
      (⟨0, [(5, true)], [], [(7771, []), (7772, []), (7773, []), (7774, [])]⟩, []) ∧
    ([(5, true)] : List (Nat × Bool)) ≠ initial_state.messageIdToWasAcked := by
  constructor
  · rfl
  · decide

/-! ### C3: send_reliable blocks its caller (code bug) -/

/-- Caller-side actions of the reliability engine. -/
inductive SendAction where
  | transmit (frame : Bytes)
  | sleepAckInterval
  | threadStart
deriving Repr, DecidableEq

/-- The `while not self._message_id_to_was_acked[message_id]` retransmission
loop.  `acked k` is the flag value observed at the k-th poll (set by the
listener thread); `none` means the loop is still running after `fuel`
polls (with an oracle that is never true, it runs forever). -/
def wait_for_ack_loop (msg : Bytes) (acked : Nat → Bool) :
    Nat → Nat → Option (List SendAction)
  | _, 0 => none
  | polls, fuel + 1 =>
    if acked polls then some [] else
      (wait_for_ack_loop msg acked (polls + 1) fuel).map
        (fun rest => SendAction.transmit msg :: SendAction.sleepAckInterval :: rest)

/-- `_send_message_and_wait_for_ack`: transmit once, sleep
`ACK_ARRIVAL_TIME`, then poll-retransmit until the flag is set. -/
def send_message_and_wait_for_ack (msg : Bytes) (acked : Nat → Bool)
    (fuel : Nat) : Option (List SendAction) :=
  (wait_for_ack_loop msg acked 1 fuel).map
    (fun rest => SendAction.transmit msg :: SendAction.sleepAckInterval :: rest)

/-- `send_reliable` as the caller executes it.  Because the source writes
`Thread(target=self._send_message_and_wait_for_ack(message, message_id))`,
the target expression is evaluated — the whole retransmission loop runs in
the calling thread — before `Thread(...).start()` is reached; the returned
action list is what the caller performs before `send_reliable` returns.
`none` means the caller never returns (ACK never observed). -/
def send_reliable (s : ClientState) (message : Bytes) (acked : Nat → Bool)
    (fuel : Nat) : Option (ClientState × List SendAction) :=
  let mid := s.nextMessageId + 1
  let s' : ClientState :=
    { s with
        nextMessageId := mid
        messageIdToWasAcked := alistSet s.messageIdToWasAcked mid false }
  let wrapped := wrap_reliable message mid
  (send_message_and_wait_for_ack wrapped acked fuel).map
    (fun acts => (s', acts ++ [SendAction.threadStart]))

/-- C3 (code-bug evidence): whenever `send_reliable` returns at all, the
caller itself has already transmitted the wrapped frame and slept at least
one `ACK_ARRIVAL_TIME` interval — the retransmission loop runs inside the
caller, before the `Thread` object is even constructed — contradicting the
claim that `send_reliable` returns immediately without the loop executing
in the caller. -/
theorem C3_send_reliable_blocks_caller (s : ClientState) (message : Bytes)
    (acked : Nat → Bool) (fuel : Nat) (s' : ClientState) (acts : List SendAction)
    (h : send_reliable s message acked fuel = some (s', acts)) :
    acts.head? =
      some (SendAction.transmit (wrap_reliable message (s.nextMessageId + 1))) ∧
    SendAction.sleepAckInterval ∈ acts := by
  simp only [send_reliable, send_message_and_wait_for_ack] at h
  rcases hw : wait_for_ack_loop (wrap_reliable message (s.nextMessageId + 1))
      acked 1 fuel with _ | rest
  · rw [hw] at h
    simp at h
  · rw [hw] at h
    simp only [Option.map_some', Option.some.injEq, Prod.mk.injEq] at h
    obtain ⟨hs, hacts⟩ := h
    subst hacts
    exact ⟨rfl, by simp⟩

/-- Witness for C3: even when the ACK flag is already true at the first
poll, the caller transmits once and sleeps once before returning. -/
theorem C3_send_reliable_blocks_caller_witness :
    ([SendAction.transmit (wrap_reliable [104, 105] 1), SendAction.sleepAckInterval,
        SendAction.threadStart] : List SendAction).head? =
      some (SendAction.transmit (wrap_reliable [104, 105] 1)) ∧
    SendAction.sleepAckInterval ∈
      ([SendAction.transmit (wrap_reliable [104, 105] 1), SendAction.sleepAckInterval,
        SendAction.threadStart] : List SendAction) :=
  C3_send_reliable_blocks_caller initial_state [104, 105] (fun _ => true) 1
    ⟨1, [(1, false)], [], [(7771, []), (7772, []), (7773, []), (7774, [])]⟩
    [SendAction.transmit (wrap_reliable [104, 105] 1), SendAction.sleepAckInterval,
      SendAction.threadStart]
    (by decide)

/-! ### C8: file transfer end to end -/

/-- The `transferred_file.read(CHUNK_SIZE)` loop: split the file contents
into chunks of `chunkSize` bytes, last chunk possibly short, none empty
(requires `chunkSize ≥ 1`, as in the source where it is 1024). -/
def chunksOfF (chunkSize : Nat) : Nat → Bytes → List Bytes
  | _, [] => []
  | 0, _ :: _ => []
  | fuel + 1, h :: t =>
    (h :: t).take chunkSize :: chunksOfF chunkSize fuel ((h :: t).drop chunkSize)

def file_chunks (chunkSize : Nat) (data : Bytes) : List Bytes :=
  chunksOfF chunkSize data.length data

/-- The content-frame loop of `_handle_file_send`: `packet_index += 1` then
send `pack(packet_index) ‖ b'0' ‖ chunk` for each chunk. -/
def file_send_loop (chunks : List Bytes) (packetIndex : Nat) : List Bytes :=
  match chunks with
  | [] => []
  | c :: rest => (packU32 (packetIndex + 1) ++ [48] ++ c) ::
      file_send_loop rest (packetIndex + 1)

/-- The payload sequence `_handle_file_send` emits on its stream: frame 0 is
`pack(0) ‖ b'0' ‖ basename`, frames 1..N-1 carry the content chunks, and the
final frame is `pack(N) ‖ b'1'` with empty payload. -/
def handle_file_send_payloads (basename fileData : Bytes) (chunkSize : Nat) :
    List Bytes :=
  (packU32 0 ++ [48] ++ basename) ::
    (file_send_loop (file_chunks chunkSize fileData) 0 ++
      [packU32 ((file_chunks chunkSize fileData).length + 1) ++ [49]])

/-- The `for i in range(1, number_of_chunks): file_data.extend(chunks[i])`
reassembly loop; `none` models the `KeyError` crash on a missing index. -/
def collect_chunks (chunks : List (Nat × Bytes)) (n : Nat) : Option Bytes :=
  (List.range' 1 (n - 1)).foldl
    (fun acc i => do
      let a ← acc
      let c ← alistGet? chunks i
      pure (a ++ c))
    (some [])

/-- `_handle_file_chunks(stream_id, number_of_chunks)`: once the stream's
chunk table holds exactly `n` entries, decode chunk 0 as the filename,
concatenate chunks 1..n-1, clear the stream's chunk table and invoke
`on_file`.  `none` models the polling wait (table not yet full) or a
`KeyError` crash. -/
def handle_file_chunks (s : ClientState) (sid n : Nat) :
    Option (ClientState × List Action) :=
  let chunks := (alistGet? s.fileStreamChunks sid).getD []
  if chunks.length = n then do
    let fname ← alistGet? chunks 0
    let fileData ← collect_chunks chunks n
    pure ({ s with fileStreamChunks := alistSet s.fileStreamChunks sid [] },
      [Action.onFile fname fileData])
  else
    none

/-- Feed a sequence of wire frames through `unwrap` and the handler in
order (failed parses are logged and dropped by the listener). -/
def process_wire (s : ClientState) : List Bytes → ClientState × List Action
  | [] => (s, [])
  | f :: rest =>
    match unwrap f with
    | none => process_wire s rest
    | some u =>
      let p := handle_unwrapped_message s u
      let q := process_wire p.1 rest
      (q.1, p.2 ++ q.2)

/-- C8: File transfer end-to-end.  For a file named `hello.txt` with
contents `b"ABC"` and `CHUNK_SIZE = 2`, `_handle_file_send` emits exactly
four payloads on its stream — chunk 0 the UTF-8 basename with is-last flag
`'0'`, chunk 1 `b"AB"`, chunk 2 `b"C"`, chunk 3 the end marker with flag
`'1'` and empty payload; the receiver, fed the four reliable-stream frames
(ids 1..4 on stream 7771), ACKs each, stores chunks 0–2, spawns the
finaliser with chunk count 3, and the finaliser invokes `on_file` exactly
once with `hello.txt` / `b"ABC"` and clears that stream's chunk table. -/
theorem C8_file_transfer_end_to_end :
    handle_file_send_payloads [104, 101, 108, 108, 111, 46, 116, 120, 116]
      [65, 66, 67] 2 =
      [packU32 0 ++ [48] ++ [104, 101, 108, 108, 111, 46, 116, 120, 116],
       packU32 1 ++ [48] ++ [65, 66],
       packU32 2 ++ [48] ++ [67],
       packU32 3 ++ [49]] ∧
    process_wire initial_state
      [wrap_reliable_stream
        (packU32 0 ++ [48] ++ [104, 101, 108, 108, 111, 46, 116, 120, 116]) 1 7771,
       wrap_reliable_stream (packU32 1 ++ [48] ++ [65, 66]) 2 7771,
       wrap_reliable_stream (packU32 2 ++ [48] ++ [67]) 3 7771,
       wrap_reliable_stream (packU32 3 ++ [49]) 4 7771] =
      (⟨0, [], [1, 2, 3, 4],
        [(7771, [(0, [104, 101, 108, 108, 111, 46, 116, 120, 116]),
                 (1, [65, 66]), (2, [67])]),
         (7772, []), (7773, []), (7774, [])]⟩,
       [Action.peerSend (wrap_ack 1), Action.peerSend (wrap_ack 2),
        Action.peerSend (wrap_ack 3), Action.peerSend (wrap_ack 4),
        Action.spawnHandleFileChunks 7771 3]) ∧
    handle_file_chunks
      ⟨0, [], [1, 2, 3, 4],
        [(7771, [(0, [104, 101, 108, 108, 111, 46, 116, 120, 116]),
                 (1, [65, 66]), (2, [67])]),
         (7772, []), (7773, []), (7774, [])]⟩ 7771 3 =
      some (⟨0, [], [1, 2, 3, 4],
        [(7771, []), (7772, []), (7773, []), (7774, [])]⟩,
        [Action.onFile [104, 101, 108, 108, 111, 46, 116, 120, 116] [65, 66, 67]]) := by
  refine ⟨by decide, by decide, by decide⟩

/-! ### C9: CRC-32 rejects every single-byte change of the stuffed payload -/

theorem crcStep_inj {c1 c2 : Nat} (h1 : c1 < 2 ^ 32) (h2 : c2 < 2 ^ 32)
    (h : crcStep c1 = crcStep c2) : c1 = c2 := by
  have h31 : (2 : Nat) ^ 31 = 2147483648 := by norm_num
  have h32 : (2 : Nat) ^ 32 = 4294967296 := by norm_num
  have hd1 : c1 / 2 < 2 ^ 31 := by omega
  have hd2 : c2 / 2 < 2 ^ 31 := by omega
  unfold crcStep at h
  by_cases p1 : c1 % 2 = 1 <;> by_cases p2 : c2 % 2 = 1
  · rw [if_pos p1, if_pos p2] at h
    have hq : c1 / 2 = c2 / 2 := by
      have := congrArg (fun x => x ^^^ 0xEDB88320) h
      simpa [Nat.xor_assoc] using this
    omega
  · exfalso
    rw [if_pos p1, if_neg p2] at h
    have hb := congrArg (fun x => Nat.testBit x 31) h
    simp only [Nat.testBit_xor] at hb
    rw [Nat.testBit_eq_false_of_lt hd1, Nat.testBit_eq_false_of_lt hd2,
      (by decide : Nat.testBit 0xEDB88320 31 = true)] at hb
    simp at hb
  · exfalso
    rw [if_neg p1, if_pos p2] at h
    have hb := congrArg (fun x => Nat.testBit x 31) h
    simp only [Nat.testBit_xor] at hb
    rw [Nat.testBit_eq_false_of_lt hd1, Nat.testBit_eq_false_of_lt hd2,
      (by decide : Nat.testBit 0xEDB88320 31 = true)] at hb
    simp at hb
  · rw [if_neg p1, if_neg p2] at h
    omega

theorem crcIter_inj : ∀ (k : Nat) {c1 c2 : Nat}, c1 < 2 ^ 32 → c2 < 2 ^ 32 →
    crcStep^[k] c1 = crcStep^[k] c2 → c1 = c2 := by
  intro k
  induction k with
  | zero => intro c1 c2 _ _ h; simpa using h
  | succ k ih =>
    intro c1 c2 h1 h2 h
    rw [Function.iterate_succ_apply, Function.iterate_succ_apply] at h
    exact crcStep_inj h1 h2 (ih (crcStep_lt h1) (crcStep_lt h2) h)

theorem crcByte_inj_left {c1 c2 b : Nat} (h1 : c1 < 2 ^ 32) (h2 : c2 < 2 ^ 32)
    (hb : b < 2 ^ 32) (h : crcByte c1 b = crcByte c2 b) : c1 = c2 := by
  unfold crcByte at h
  have := crcIter_inj 8 (Nat.xor_lt_two_pow h1 hb) (Nat.xor_lt_two_pow h2 hb) h
  have := congrArg (fun x => x ^^^ b) this
  simpa [Nat.xor_assoc] using this

theorem crcByte_ne_right {c b1 b2 : Nat} (hc : c < 2 ^ 32) (hb1 : b1 < 2 ^ 32)
    (hb2 : b2 < 2 ^ 32) (hne : b1 ≠ b2) : crcByte c b1 ≠ crcByte c b2 := by
  intro h
  unfold crcByte at h
  have hx := crcIter_inj 8 (Nat.xor_lt_two_pow hc hb1) (Nat.xor_lt_two_pow hc hb2) h
  have := congrArg (fun x => c ^^^ x) hx
  simp only [Nat.xor_cancel_left] at this
  exact hne this

theorem crcFold_ne : ∀ (suf : Bytes) {c1 c2 : Nat}, (∀ x ∈ suf, x < 256) →
    c1 < 2 ^ 32 → c2 < 2 ^ 32 → c1 ≠ c2 →
    suf.foldl crcByte c1 ≠ suf.foldl crcByte c2 := by
  intro suf
  induction suf with
  | nil => intro c1 c2 _ _ _ hne; simpa using hne
  | cons x t ih =>
    intro c1 c2 hbytes h1 h2 hne
    have hx : x < 2 ^ 32 := by
      have := hbytes x (by simp)
      omega
    simp only [List.foldl_cons]
    exact ih (fun y hy => hbytes y (by simp [hy]))
      (crcByte_lt h1 hx) (crcByte_lt h2 hx)
      (fun h => hne (crcByte_inj_left h1 h2 hx h))

theorem mem_of_mem_set : ∀ (s : Bytes) (i b x : Nat), x ∈ s.set i b →
    x ∈ s ∨ x = b := by
  intro s
  induction s with
  | nil => intro i b x hx; simp at hx
  | cons h t ih =>
    intro i b x hx
    cases i with
    | zero =>
      rcases List.mem_cons.mp hx with hx | hx
      · exact Or.inr hx
      · exact Or.inl (by simp [hx])
    | succ i =>
      rcases List.mem_cons.mp hx with hx | hx
      · exact Or.inl (by simp [hx])
      · rcases ih i b x hx with hx | hx
        · exact Or.inl (by simp [hx])
        · exact Or.inr hx

theorem crcFold_ne_of_set : ∀ (s : Bytes) (i b v r : Nat),
    (∀ x ∈ s, x < 256) → b < 256 → r < 2 ^ 32 →
    s[i]? = some v → b ≠ v →
    (s.set i b).foldl crcByte r ≠ s.foldl crcByte r := by
  intro s
  induction s with
  | nil => intro i b v r _ _ _ hsi; simp at hsi
  | cons x t ih =>
    intro i b v r hbytes hb hr hsi hne
    have hx : x < 2 ^ 32 := by
      have := hbytes x (by simp)
      omega
    cases i with
    | zero =>
      have hxv : x = v := by simpa using hsi
      subst hxv
      show t.foldl crcByte (crcByte r b) ≠ t.foldl crcByte (crcByte r x)
      exact crcFold_ne t (fun y hy => hbytes y (by simp [hy]))
        (crcByte_lt hr (by omega)) (crcByte_lt hr hx)
        (crcByte_ne_right hr (by omega) hx hne)
    | succ i =>
      show (t.set i b).foldl crcByte (crcByte r x) ≠ t.foldl crcByte (crcByte r x)
      exact ih i b v (crcByte r x) (fun y hy => hbytes y (by simp [hy])) hb
        (crcByte_lt hr hx) (by simpa using hsi) hne

/-- Changing one byte of a byte string changes its CRC-32: the shift-register
update is injective, so the differing byte propagates to a differing final
register. -/
theorem crc32_ne_of_set (s : Bytes) (i b v : Nat)
    (hbytes : ∀ x ∈ s, x < 256) (hb : b < 256)
    (hsi : s[i]? = some v) (hne : b ≠ v) :
    crc32 (s.set i b) ≠ crc32 s := by
  unfold crc32
  intro h
  have := congrArg (fun x => x ^^^ 0xFFFFFFFF) h
  simp only [Nat.xor_cancel_right] at this
  exact crcFold_ne_of_set s i b v 0xFFFFFFFF hbytes hb (by norm_num) hsi hne this

theorem set_append_right (X Y : Bytes) (i b : Nat) {n : Nat} (h : X.length = n) :
    (X ++ Y).set (n + i) b = X ++ Y.set i b := by
  subst h
  rw [List.set_append, if_neg (by omega)]
  congr 2
  omega

theorem set_append_left (X Y : Bytes) (i b : Nat) (h : i < X.length) :
    (X ++ Y).set i b = X.set i b ++ Y := by
  rw [List.set_append, if_pos h]

theorem unwrap_set_reliable (p : Bytes) (m i b v : Nat)
    (hp : ∀ x ∈ p, x < 256) (hm : m < 2 ^ 32)
    (hlen : (stuff_data p).length < 2 ^ 32) (hC : crc32 (stuff_data p) < 2 ^ 32)
    (hv : (stuff_data p)[i]? = some v) (hne : b ≠ v) (hb : b < 256) :
    unwrap ((wrap_reliable p m).set (17 + i) b) = none := by
  have hi : i < (stuff_data p).length := (List.getElem?_eq_some.mp hv).1
  have hcrcne : crc32 (stuff_data p) ≠ crc32 ((stuff_data p).set i b) :=
    (crc32_ne_of_set (stuff_data p) i b v (stuff_data_bytes_lt hp) hb hv hne).symm
  have hmod : (wrap_reliable p m).set (17 + i) b =
      (BARKER ++ [0]) ++ (packU32 m ++ (packU32 (stuff_data p).length ++
        ((stuff_data p).set i b ++ packU32 (crc32 (stuff_data p))))) := by
    rw [show wrap_reliable p m =
        ((((BARKER ++ [0]) ++ packU32 m) ++ packU32 (stuff_data p).length)) ++
          (stuff_data p ++ packU32 (crc32 (stuff_data p))) from rfl]
    rw [set_append_right _ _ i b
      (by simp only [List.length_append, packU32, List.length_cons, List.length_nil,
            BARKER] <;> omega :
        ((((BARKER ++ [0]) ++ packU32 m) ++ packU32 (stuff_data p).length)).length = 17)]
    rw [set_append_left _ _ i b hi]
    rfl
  have hext : extract_message ((BARKER ++ [0]) ++ (packU32 m ++
      (packU32 (stuff_data p).length ++ ((stuff_data p).set i b ++
        packU32 (crc32 (stuff_data p)))))) (BARKER_LENGTH + 1 + 4) = none := by
    have h := extract_message_spec ((BARKER ++ [0]) ++ packU32 m)
      ((stuff_data p).set i b) (crc32 (stuff_data p))
      (by rw [List.length_set]; exact hlen) hC
    rw [if_neg hcrcne, List.length_set] at h
    exact h
  have h9 : readU32 ((BARKER ++ [0]) ++ (packU32 m ++ (packU32 (stuff_data p).length ++
      ((stuff_data p).set i b ++ packU32 (crc32 (stuff_data p)))))) (BARKER_LENGTH + 1) =
      some m := readU32_append (BARKER ++ [0]) _ m hm
  rw [hmod]
  have hw : unwrap ((BARKER ++ [0]) ++ (packU32 m ++ (packU32 (stuff_data p).length ++
      ((stuff_data p).set i b ++ packU32 (crc32 (stuff_data p)))))) =
      unwrap_reliable ((BARKER ++ [0]) ++ (packU32 m ++ (packU32 (stuff_data p).length ++
        ((stuff_data p).set i b ++ packU32 (crc32 (stuff_data p)))))) := rfl
  rw [hw]
  simp only [unwrap_reliable, h9, Option.bind_eq_bind, Option.some_bind, hext,
    Option.none_bind]

theorem unwrap_set_unreliable (p : Bytes) (i b v : Nat)
    (hp : ∀ x ∈ p, x < 256)
    (hlen : (stuff_data p).length < 2 ^ 32) (hC : crc32 (stuff_data p) < 2 ^ 32)
    (hv : (stuff_data p)[i]? = some v) (hne : b ≠ v) (hb : b < 256) :
    unwrap ((wrap_unreliable p).set (13 + i) b) = none := by
  have hi : i < (stuff_data p).length := (List.getElem?_eq_some.mp hv).1
  have hcrcne : crc32 (stuff_data p) ≠ crc32 ((stuff_data p).set i b) :=
    (crc32_ne_of_set (stuff_data p) i b v (stuff_data_bytes_lt hp) hb hv hne).symm
  have hmod : (wrap_unreliable p).set (13 + i) b =
      (BARKER ++ [1]) ++ (packU32 (stuff_data p).length ++
        ((stuff_data p).set i b ++ packU32 (crc32 (stuff_data p)))) := by
    rw [show wrap_unreliable p =
        ((BARKER ++ [1]) ++ packU32 (stuff_data p).length) ++
          (stuff_data p ++ packU32 (crc32 (stuff_data p))) from rfl]
    rw [set_append_right _ _ i b
      (by simp only [List.length_append, packU32, List.length_cons, List.length_nil,
            BARKER] <;> omega :
        (((BARKER ++ [1]) ++ packU32 (stuff_data p).length)).length = 13)]
    rw [set_append_left _ _ i b hi]
    rfl
  have hext : extract_message ((BARKER ++ [1]) ++ (packU32 (stuff_data p).length ++
      ((stuff_data p).set i b ++ packU32 (crc32 (stuff_data p)))))
      (BARKER_LENGTH + 1) = none := by
    have h := extract_message_spec (BARKER ++ [1]) ((stuff_data p).set i b)
      (crc32 (stuff_data p)) (by rw [List.length_set]; exact hlen) hC
    rw [if_neg hcrcne, List.length_set] at h
    exact h
  rw [hmod]
  have hw : unwrap ((BARKER ++ [1]) ++ (packU32 (stuff_data p).length ++
      ((stuff_data p).set i b ++ packU32 (crc32 (stuff_data p))))) =
      unwrap_unreliable ((BARKER ++ [1]) ++ (packU32 (stuff_data p).length ++
        ((stuff_data p).set i b ++ packU32 (crc32 (stuff_data p))))) := rfl
  rw [hw]
  simp only [unwrap_unreliable, hext, Option.bind_eq_bind, Option.none_bind]

theorem unwrap_set_reliable_stream (p : Bytes) (m sid i b v : Nat)
    (hp : ∀ x ∈ p, x < 256) (hm : m < 2 ^ 32) (hsid : sid < 2 ^ 32)
    (hlen : (stuff_data p).length < 2 ^ 32) (hC : crc32 (stuff_data p) < 2 ^ 32)
    (hv : (stuff_data p)[i]? = some v) (hne : b ≠ v) (hb : b < 256) :
    unwrap ((wrap_reliable_stream p m sid).set (21 + i) b) = none := by
  have hi : i < (stuff_data p).length := (List.getElem?_eq_some.mp hv).1
  have hcrcne : crc32 (stuff_data p) ≠ crc32 ((stuff_data p).set i b) :=
    (crc32_ne_of_set (stuff_data p) i b v (stuff_data_bytes_lt hp) hb hv hne).symm
  have hmod : (wrap_reliable_stream p m sid).set (21 + i) b =
      (BARKER ++ [2]) ++ (packU32 m ++ (packU32 sid ++ (packU32 (stuff_data p).length ++
        ((stuff_data p).set i b ++ packU32 (crc32 (stuff_data p)))))) := by
    rw [show wrap_reliable_stream p m sid =
        (((((BARKER ++ [2]) ++ packU32 m) ++ packU32 sid) ++
          packU32 (stuff_data p).length)) ++
          (stuff_data p ++ packU32 (crc32 (stuff_data p))) from rfl]
    rw [set_append_right _ _ i b
      (by simp only [List.length_append, packU32, List.length_cons, List.length_nil,
            BARKER] <;> omega :
        ((((((BARKER ++ [2]) ++ packU32 m) ++ packU32 sid) ++
          packU32 (stuff_data p).length))).length = 21)]
    rw [set_append_left _ _ i b hi]
    rfl
  have h9 : readU32 ((BARKER ++ [2]) ++ (packU32 m ++ (packU32 sid ++
      (packU32 (stuff_data p).length ++ ((stuff_data p).set i b ++
        packU32 (crc32 (stuff_data p))))))) (BARKER_LENGTH + 1) = some m :=
    readU32_append (BARKER ++ [2]) _ m hm
  have h13 : readU32 ((BARKER ++ [2]) ++ (packU32 m ++ (packU32 sid ++
      (packU32 (stuff_data p).length ++ ((stuff_data p).set i b ++
        packU32 (crc32 (stuff_data p))))))) (BARKER_LENGTH + 1 + 4) = some sid :=
    readU32_append ((BARKER ++ [2]) ++ packU32 m) _ sid hsid
  have hext : extract_message ((BARKER ++ [2]) ++ (packU32 m ++ (packU32 sid ++
      (packU32 (stuff_data p).length ++ ((stuff_data p).set i b ++
        packU32 (crc32 (stuff_data p))))))) (BARKER_LENGTH + 1 + 4 + 4) = none := by
    have h := extract_message_spec (((BARKER ++ [2]) ++ packU32 m) ++ packU32 sid)
      ((stuff_data p).set i b) (crc32 (stuff_data p))
      (by rw [List.length_set]; exact hlen) hC
    rw [if_neg hcrcne, List.length_set] at h
    exact h
  rw [hmod]
  have hw : unwrap ((BARKER ++ [2]) ++ (packU32 m ++ (packU32 sid ++
      (packU32 (stuff_data p).length ++ ((stuff_data p).set i b ++
        packU32 (crc32 (stuff_data p))))))) =
      unwrap_reliable_stream ((BARKER ++ [2]) ++ (packU32 m ++ (packU32 sid ++
        (packU32 (stuff_data p).length ++ ((stuff_data p).set i b ++
          packU32 (crc32 (stuff_data p))))))) := rfl
  rw [hw]
  simp only [unwrap_reliable_stream, h9, h13, Option.bind_eq_bind, Option.some_bind,
    hext, Option.none_bind]

theorem unwrap_set_unreliable_stream (p : Bytes) (sid i b v : Nat)
    (hp : ∀ x ∈ p, x < 256) (hsid : sid < 2 ^ 32)
    (hlen : (stuff_data p).length < 2 ^ 32) (hC : crc32 (stuff_data p) < 2 ^ 32)
    (hv : (stuff_data p)[i]? = some v) (hne : b ≠ v) (hb : b < 256) :
    unwrap ((wrap_unreliable_stream p sid).set (17 + i) b) = none := by
  have hi : i < (stuff_data p).length := (List.getElem?_eq_some.mp hv).1
  have hcrcne : crc32 (stuff_data p) ≠ crc32 ((stuff_data p).set i b) :=
    (crc32_ne_of_set (stuff_data p) i b v (stuff_data_bytes_lt hp) hb hv hne).symm
  have hmod : (wrap_unreliable_stream p sid).set (17 + i) b =
      (BARKER ++ [3]) ++ (packU32 sid ++ (packU32 (stuff_data p).length ++
        ((stuff_data p).set i b ++ packU32 (crc32 (stuff_data p))))) := by
    rw [show wrap_unreliable_stream p sid =
        ((((BARKER ++ [3]) ++ packU32 sid) ++ packU32 (stuff_data p).length)) ++
          (stuff_data p ++ packU32 (crc32 (stuff_data p))) from rfl]
    rw [set_append_right _ _ i b
      (by simp only [List.length_append, packU32, List.length_cons, List.length_nil,
            BARKER] <;> omega :
        (((((BARKER ++ [3]) ++ packU32 sid) ++
          packU32 (stuff_data p).length))).length = 17)]
    rw [set_append_left _ _ i b hi]
    rfl
  have h9 : readU32 ((BARKER ++ [3]) ++ (packU32 sid ++
      (packU32 (stuff_data p).length ++ ((stuff_data p).set i b ++
        packU32 (crc32 (stuff_data p)))))) (BARKER_LENGTH + 1) = some sid :=
    readU32_append (BARKER ++ [3]) _ sid hsid
  have hext : extract_message ((BARKER ++ [3]) ++ (packU32 sid ++
      (packU32 (stuff_data p).length ++ ((stuff_data p).set i b ++
        packU32 (crc32 (stuff_data p)))))) (BARKER_LENGTH + 1 + 4) = none := by
    have h := extract_message_spec ((BARKER ++ [3]) ++ packU32 sid)
      ((stuff_data p).set i b) (crc32 (stuff_data p))
      (by rw [List.length_set]; exact hlen) hC
    rw [if_neg hcrcne, List.length_set] at h
    exact h
  rw [hmod]
  have hw : unwrap ((BARKER ++ [3]) ++ (packU32 sid ++
      (packU32 (stuff_data p).length ++ ((stuff_data p).set i b ++
        packU32 (crc32 (stuff_data p)))))) =
      unwrap_unreliable_stream ((BARKER ++ [3]) ++ (packU32 sid ++
        (packU32 (stuff_data p).length ++ ((stuff_data p).set i b ++
          packU32 (crc32 (stuff_data p)))))) := rfl
  rw [hw]
  simp only [unwrap_unreliable_stream, h9, Option.bind_eq_bind, Option.some_bind,
    hext, Option.none_bind]

/-- C9: CRC single-byte rejection.  For every frame of types 0–3, changing
exactly one byte inside the stuffed-payload region (the header and CRC field
left intact) to any different byte value yields a buffer on which
`Protocol.unwrap` fails.  The stuffed payload occupies offsets 17.. for
type 0, 13.. for type 1, 21.. for type 2, 17.. for type 3. -/
theorem C9_crc_single_byte_rejection (p : Bytes) (m sid i b v : Nat)
    (hp : ∀ x ∈ p, x < 256) (hplen : p.length < 2 ^ 31)
    (hm : m < 2 ^ 32) (hsid : sid < 2 ^ 32)
    (hv : (stuff_data p)[i]? = some v) (hne : b ≠ v) (hb : b < 256) :
    unwrap ((wrap_reliable p m).set (17 + i) b) = none ∧
    unwrap ((wrap_unreliable p).set (13 + i) b) = none ∧
    unwrap ((wrap_reliable_stream p m sid).set (21 + i) b) = none ∧
    unwrap ((wrap_unreliable_stream p sid).set (17 + i) b) = none := by
  have h31 : (2 : Nat) ^ 31 = 2147483648 := by norm_num
  have h32 : (2 : Nat) ^ 32 = 4294967296 := by norm_num
  have hlen : (stuff_data p).length < 2 ^ 32 := by
    have := stuff_data_length_le p
    omega
  have hC : crc32 (stuff_data p) < 2 ^ 32 := crc32_lt (stuff_data_bytes_lt hp)
  exact ⟨unwrap_set_reliable p m i b v hp hm hlen hC hv hne hb,
    unwrap_set_unreliable p i b v hp hlen hC hv hne hb,
    unwrap_set_reliable_stream p m sid i b v hp hm hsid hlen hC hv hne hb,
    unwrap_set_unreliable_stream p sid i b v hp hsid hlen hC hv hne hb⟩

/-- Witness for C9: corrupting byte 1 of the stuffed payload of concrete
frames of each type. -/
theorem C9_crc_single_byte_rejection_witness :
    unwrap ((wrap_reliable [1, 2, 3] 5).set (17 + 1) 7) = none ∧
    unwrap ((wrap_unreliable [1, 2, 3]).set (13 + 1) 7) = none ∧
    unwrap ((wrap_reliable_stream [1, 2, 3] 5 7771).set (21 + 1) 7) = none ∧
    unwrap ((wrap_unreliable_stream [1, 2, 3] 7771).set (17 + 1) 7) = none :=
  C9_crc_single_byte_rejection [1, 2, 3] 5 7771 1 7 2 (by decide) (by decide)
    (by decide) (by decide) (by decide) (by decide) (by decide)

/-! ### C6: the receive pipeline (`_listen` / `_extract_packets`) -/

/-- Fuelled core of Python `data.find(sub, start)`: the smallest index
`i ≥ start` at which `sub` occurs in full, else `none` (Python's `-1`). -/
def findSubF (d pat : Bytes) : Nat → Nat → Option Nat
  | 0, _ => none
  | fuel + 1, start =>
    if d.length < start + pat.length then none
    else if pat.isPrefixOf (d.drop start) then some start
    else findSubF d pat fuel (start + 1)

/-- Python `data.find(pat, start)` (for a non-empty pattern). -/
def findSub (d pat : Bytes) (start : Nat) : Option Nat :=
  findSubF d pat (d.length + 1 - start) start

/-- A full occurrence of the Barker needs 8 bytes of room. -/
theorem occ_bound {d : Bytes} {j : Nat} (h : BARKER <+: d.drop j) :
    j + 8 ≤ d.length := by
  have hl := h.length_le
  simp only [List.length_drop] at hl
  have h8 : BARKER.length = 8 := rfl
  omega

theorem findSubF_sound (d pat : Bytes) : ∀ fuel start i,
    findSubF d pat fuel start = some i →
    start ≤ i ∧ pat <+: d.drop i ∧
      ∀ j, start ≤ j → j < i → ¬ pat <+: d.drop j := by
  intro fuel
  induction fuel with
  | zero => intro start i h; simp [findSubF] at h
  | succ fuel ih =>
    intro start i h
    simp only [findSubF] at h
    by_cases h1 : d.length < start + pat.length
    · rw [if_pos h1] at h
      simp at h
    · rw [if_neg h1] at h
      by_cases h2 : pat.isPrefixOf (d.drop start)
      · rw [if_pos h2] at h
        have hi : start = i := by simpa using h
        subst hi
        exact ⟨le_rfl, List.isPrefixOf_iff_prefix.mp h2, fun j hj1 hj2 => by omega⟩
      · rw [if_neg h2] at h
        obtain ⟨hge, hocc, hmin⟩ := ih (start + 1) i h
        refine ⟨by omega, hocc, ?_⟩
        intro j hj1 hj2 hc
        rcases Nat.eq_or_lt_of_le hj1 with hj | hj
        · exact h2 (List.isPrefixOf_iff_prefix.mpr (hj ▸ hc))
        · exact hmin j hj hj2 hc

theorem findSubF_none_sound (d pat : Bytes) (hp : pat ≠ []) : ∀ fuel start,
    d.length + 1 - start ≤ fuel → findSubF d pat fuel start = none →
    ∀ j, start ≤ j → ¬ pat <+: d.drop j := by
  have hpl : 1 ≤ pat.length := by
    cases pat with
    | nil => exact absurd rfl hp
    | cons a l => simp
  intro fuel
  induction fuel with
  | zero =>
    intro start hf _ j hj hc
    have hl := hc.length_le
    simp only [List.length_drop] at hl
    omega
  | succ fuel ih =>
    intro start hf h j hj hc
    simp only [findSubF] at h
    by_cases h1 : d.length < start + pat.length
    · have hl := hc.length_le
      simp only [List.length_drop] at hl
      omega
    · rw [if_neg h1] at h
      by_cases h2 : pat.isPrefixOf (d.drop start)
      · rw [if_pos h2] at h
        simp at h
      · rw [if_neg h2] at h
        rcases Nat.eq_or_lt_of_le hj with hj' | hj'
        · exact h2 (List.isPrefixOf_iff_prefix.mpr (hj' ▸ hc))
        · exact ih (start + 1) (by omega) h j hj' hc

theorem findSub_some {d pat : Bytes} {start i : Nat}
    (h : findSub d pat start = some i) :
    start ≤ i ∧ pat <+: d.drop i ∧
      ∀ j, start ≤ j → j < i → ¬ pat <+: d.drop j :=
  findSubF_sound d pat _ start i h

theorem findSub_none_iff {d pat : Bytes} (hp : pat ≠ []) {start : Nat} :
    findSub d pat start = none ↔ ∀ j, start ≤ j → ¬ pat <+: d.drop j := by
  constructor
  · intro h
    exact findSubF_none_sound d pat hp _ start le_rfl h
  · intro h
    rcases hf : findSub d pat start with _ | i
    · rfl
    · obtain ⟨hge, hocc, _⟩ := findSub_some hf
      exact absurd hocc (h i hge)

theorem findSub_eq_some_of {d pat : Bytes} (hp : pat ≠ []) {start i : Nat}
    (hocc : pat <+: d.drop i) (hge : start ≤ i)
    (hmin : ∀ j, start ≤ j → j < i → ¬ pat <+: d.drop j) :
    findSub d pat start = some i := by
  rcases h : findSub d pat start with _ | i'
  · exact absurd hocc ((findSub_none_iff hp).mp h i hge)
  · obtain ⟨hge', hocc', hmin'⟩ := findSub_some h
    have : i = i' := by
      rcases lt_trichotomy i i' with hlt | heq | hgt
      · exact absurd hocc (hmin' i hge hlt)
      · exact heq
      · exact absurd hocc' (hmin i' hge' hgt)
    rw [this]

/-- The Barker word has no non-trivial self-overlap. -/
theorem barker_no_self_overlap :
    ∀ k, k < 8 → 1 ≤ k → BARKER.drop k ≠ BARKER.take (8 - k) := by decide

/-- An occurrence inside the left part of an append is an occurrence of the
whole. -/
theorem occ_append_left {X : Bytes} (R : Bytes) {i : Nat}
    (h : BARKER <+: X.drop i) : BARKER <+: (X ++ R).drop i := by
  rw [List.drop_append_eq_append_drop]
  exact h.trans (List.prefix_append _ _)

/-- An occurrence in an append that fits entirely in the left part is an
occurrence of the left part. -/
theorem occ_in_left {X R : Bytes} {i : Nat}
    (h : BARKER <+: (X ++ R).drop i) (hfit : i + 8 ≤ X.length) :
    BARKER <+: X.drop i := by
  have h8 : BARKER.length = 8 := rfl
  rw [List.drop_append_eq_append_drop] at h
  rw [List.prefix_iff_eq_take] at h ⊢
  rwa [List.take_append_of_le_length
    (by rw [List.length_drop]; omega)] at h

/-- The boundary of an append whose right part starts with the Barker is an
occurrence. -/
theorem occ_boundary (X R : Bytes) (hR : BARKER <+: R) :
    BARKER <+: (X ++ R).drop X.length := by
  rw [List.drop_append_eq_append_drop, List.drop_length, Nat.sub_self,
    List.drop_zero, List.nil_append]
  exact hR

/-- No occurrence straddles the boundary of `X ++ R` when `R` itself starts
with the Barker: an occurrence at `i ≤ |X|` either fits in `X` or is the
boundary itself. -/
theorem occ_no_straddle {X R : Bytes} {i : Nat} (hR : BARKER <+: R)
    (h : BARKER <+: (X ++ R).drop i) (hle : i ≤ X.length) :
    i + 8 ≤ X.length ∨ i = X.length := by
  by_contra hc
  push_neg at hc
  obtain ⟨h1, h2⟩ := hc
  have h8 : BARKER.length = 8 := rfl
  set k := X.length - i with hk
  have hk1 : 1 ≤ k := by omega
  have hk8 : k < 8 := by omega
  rw [List.drop_append_eq_append_drop, Nat.sub_eq_zero_of_le hle,
    List.drop_zero] at h
  have hlen : (X.drop i).length = k := by rw [List.length_drop]
  obtain ⟨t, ht⟩ := h
  -- drop k of both sides of  BARKER ++ t = X.drop i ++ R
  have hdr := congrArg (List.drop k) ht
  rw [List.drop_append_eq_append_drop, List.drop_append_eq_append_drop,
    (by omega : k - BARKER.length = 0), List.drop_zero,
    List.drop_of_length_le (le_of_eq hlen), List.nil_append,
    hlen, Nat.sub_self, List.drop_zero] at hdr
  -- so  BARKER.drop k ++ t = R :  BARKER.drop k is a prefix of R, as is BARKER
  have hp1 : BARKER.drop k <+: R := hdr ▸ List.prefix_append _ _
  have hdl : (BARKER.drop k).length = 8 - k := by
    rw [List.length_drop, h8]
  have hp2 : BARKER.drop k <+: BARKER :=
    List.prefix_of_prefix_length_le hp1 hR (by omega)
  have heq : BARKER.drop k = BARKER.take (8 - k) := by
    rw [List.prefix_iff_eq_take] at hp2
    rw [hp2, hdl]
  exact barker_no_self_overlap k hk8 hk1 heq

/-- Two distinct occurrences of the Barker are at least 8 bytes apart. -/
theorem occ_apart {d : Bytes} {i j : Nat} (hi : BARKER <+: d.drop i)
    (hj : BARKER <+: d.drop j) (hij : i < j) : i + 8 ≤ j := by
  by_contra hc
  push_neg at hc
  have h8 : BARKER.length = 8 := rfl
  set k := j - i with hk
  have hk1 : 1 ≤ k := by omega
  have hk8 : k < 8 := by omega
  obtain ⟨t, ht⟩ := hi
  obtain ⟨t', ht'⟩ := hj
  -- drop k of both sides of  BARKER ++ t = d.drop i
  have hjk := congrArg (List.drop k) ht
  rw [List.drop_append_eq_append_drop, (by omega : k - BARKER.length = 0),
    List.drop_zero, List.drop_drop, (by omega : i + k = j)] at hjk
  -- so  BARKER.drop k ++ t = d.drop j = BARKER ++ t' :  take 8 - k of both
  have hdl : (BARKER.drop k).length = 8 - k := by
    rw [List.length_drop, h8]
  have heq : BARKER.drop k ++ t = BARKER ++ t' := hjk.trans ht'.symm
  have htk := congrArg (List.take (8 - k)) heq
  rw [List.take_append_of_le_length (le_of_eq hdl.symm),
    List.take_of_length_le (le_of_eq hdl),
    List.take_append_of_le_length (by omega)] at htk
  exact barker_no_self_overlap k hk8 hk1 htk

/-- Fuelled core of the `while True: index = data.find(BARKER, last + 8)`
scan in `_extract_packets`. -/
def barkerScanF (d : Bytes) : Nat → Nat → List Nat
  | 0, _ => []
  | fuel + 1, last =>
    match findSub d BARKER (last + 8) with
    | none => []
    | some i => i :: barkerScanF d fuel i

/-- All Barker occurrence indexes strictly after the occurrence at `last`. -/
def barkerScan (d : Bytes) (last : Nat) : List Nat :=
  barkerScanF d (d.length + 1) last

theorem barkerScanF_fuel (d : Bytes) : ∀ f1 f2 last,
    d.length + 1 ≤ last + f1 → d.length + 1 ≤ last + f2 →
    barkerScanF d f1 last = barkerScanF d f2 last := by
  intro f1
  induction f1 with
  | zero =>
    intro f2 last h1 h2
    have hnone : findSub d BARKER (last + 8) = none := by
      rw [findSub_none_iff (by decide)]
      intro j hj hc
      have := occ_bound hc
      omega
    cases f2 with
    | zero => rfl
    | succ g => simp [barkerScanF, hnone]
  | succ f1 ih =>
    intro f2 last h1 h2
    cases f2 with
    | zero =>
      have hnone : findSub d BARKER (last + 8) = none := by
        rw [findSub_none_iff (by decide)]
        intro j hj hc
        have := occ_bound hc
        omega
      simp [barkerScanF, hnone]
    | succ f2 =>
      simp only [barkerScanF]
      rcases hf : findSub d BARKER (last + 8) with _ | i
      · rfl
      · obtain ⟨hge, hocc, _⟩ := findSub_some hf
        have hib := occ_bound hocc
        show i :: barkerScanF d f1 i = i :: barkerScanF d f2 i
        rw [ih f2 i (by omega) (by omega)]

theorem barkerScan_unfold (d : Bytes) (last : Nat) :
    barkerScan d last = match findSub d BARKER (last + 8) with
      | none => []
      | some i => i :: barkerScan d i := by
  show barkerScanF d (d.length + 1) last = _
  rcases hl : d.length + 1 with _ | n
  · omega
  · simp only [barkerScanF]
    rcases hf : findSub d BARKER (last + 8) with _ | i
    · rfl
    · obtain ⟨hge, hocc, _⟩ := findSub_some hf
      have hib := occ_bound hocc
      show i :: barkerScanF d n i = i :: barkerScan d i
      rw [barkerScanF_fuel d n (d.length + 1) i (by omega) (by omega)]
      rfl

/-- Searching past the left part of an append is the shifted search of the
right part. -/
theorem findSub_shift (X W : Bytes) (s : Nat) :
    findSub (X ++ W) BARKER (X.length + s) =
      (findSub W BARKER s).map (· + X.length) := by
  rcases hf : findSub W BARKER s with _ | j
  · simp only [Option.map_none']
    rw [findSub_none_iff (by decide)]
    intro k hk hc
    rw [(by omega : k = X.length + (k - X.length)), List.drop_append] at hc
    exact (findSub_none_iff (by decide)).mp hf (k - X.length) (by omega) hc
  · simp only [Option.map_some']
    obtain ⟨hge, hocc, hmin⟩ := findSub_some hf
    apply findSub_eq_some_of (by decide)
    · rw [Nat.add_comm j X.length, List.drop_append]
      exact hocc
    · omega
    · intro k hk1 hk2 hc
      rw [(by omega : k = X.length + (k - X.length)), List.drop_append] at hc
      exact hmin (k - X.length) (by omega) (by omega) hc

theorem scan_shift_aux (X W : Bytes) : ∀ n a, W.length ≤ a + n →
    barkerScan (X ++ W) (X.length + a) = (barkerScan W a).map (· + X.length) := by
  intro n
  induction n with
  | zero =>
    intro a ha
    rw [barkerScan_unfold, barkerScan_unfold]
    have h1 : findSub W BARKER (a + 8) = none := by
      rw [findSub_none_iff (by decide)]
      intro j hj hc
      have := occ_bound hc
      omega
    have h2 : findSub (X ++ W) BARKER (X.length + a + 8) = none := by
      rw [(by omega : X.length + a + 8 = X.length + (a + 8)), findSub_shift, h1]
      rfl
    rw [h1, h2]
    rfl
  | succ n ih =>
    intro a ha
    rw [barkerScan_unfold, barkerScan_unfold]
    rw [(by omega : X.length + a + 8 = X.length + (a + 8)), findSub_shift]
    rcases hf : findSub W BARKER (a + 8) with _ | j
    · rfl
    · simp only [Option.map_some']
      obtain ⟨hge, hocc, _⟩ := findSub_some hf
      have hb := occ_bound hocc
      show (j + X.length) :: barkerScan (X ++ W) (j + X.length) =
        ((j :: barkerScan W j).map (· + X.length))
      rw [List.map_cons]
      congr 1
      rw [Nat.add_comm j X.length]
      exact ih j (by omega)

theorem scan_shift (X W : Bytes) (a : Nat) :
    barkerScan (X ++ W) (X.length + a) = (barkerScan W a).map (· + X.length) :=
  scan_shift_aux X W W.length a (by omega)

/-- Searching from inside the left part of an append whose right part starts
with the Barker: either the left part's own next occurrence, or the
boundary. -/
theorem findSub_in_left {X : Bytes} (W : Bytes) (hW : BARKER <+: W) {s : Nat}
    (hs : s ≤ X.length) :
    findSub (X ++ W) BARKER s =
      some ((findSub X BARKER s).getD X.length) := by
  rcases hf : findSub X BARKER s with _ | i
  · simp only [Option.getD_none]
    apply findSub_eq_some_of (by decide)
    · exact occ_boundary X W hW
    · exact hs
    · intro j hj1 hj2 hc
      rcases occ_no_straddle hW hc (by omega) with hfit | heq
      · exact (findSub_none_iff (by decide)).mp hf j hj1 (occ_in_left hc hfit)
      · omega
  · simp only [Option.getD_some]
    obtain ⟨hge, hocc, hmin⟩ := findSub_some hf
    have hb := occ_bound hocc
    apply findSub_eq_some_of (by decide)
    · exact occ_append_left W hocc
    · exact hge
    · intro j hj1 hj2 hc
      rcases occ_no_straddle hW hc (by omega) with hfit | heq
      · exact hmin j hj1 hj2 (occ_in_left hc hfit)
      · omega

theorem scan_append_aux (X W : Bytes) (hW : BARKER <+: W) : ∀ n last,
    X.length ≤ last + n → last + 8 ≤ X.length →
    barkerScan (X ++ W) last =
      barkerScan X last ++ X.length :: (barkerScan W 0).map (· + X.length) := by
  intro n
  induction n with
  | zero => intro last h1 h2; omega
  | succ n ih =>
    intro last h1 h2
    rw [barkerScan_unfold (X ++ W), barkerScan_unfold X]
    rw [findSub_in_left W hW (h2 : last + 8 ≤ X.length)]
    rcases hf : findSub X BARKER (last + 8) with _ | i
    · simp only [Option.getD_none]
      show X.length :: barkerScan (X ++ W) X.length =
        [] ++ X.length :: (barkerScan W 0).map (· + X.length)
      rw [List.nil_append]
      congr 1
      have hs := scan_shift X W 0
      rwa [Nat.add_zero] at hs
    · simp only [Option.getD_some]
      obtain ⟨hge, hocc, _⟩ := findSub_some hf
      have hb := occ_bound hocc
      show i :: barkerScan (X ++ W) i =
        (i :: barkerScan X i) ++ X.length :: (barkerScan W 0).map (· + X.length)
      rw [List.cons_append]
      congr 1
      exact ih i (by omega) hb

theorem scan_append (X W : Bytes) (hW : BARKER <+: W) (last : Nat)
    (h2 : last + 8 ≤ X.length) :
    barkerScan (X ++ W) last =
      barkerScan X last ++ X.length :: (barkerScan W 0).map (· + X.length) :=
  scan_append_aux X W hW X.length last (by omega) h2

/-- The slicing loop of `_extract_packets`: consecutive slices
`data[idx_i : idx_(i+1)]` for the recorded Barker indexes, plus the trailing
`data[idx_last:]`. -/
def sliceUp (data : Bytes) : List Nat → List Bytes
  | [] => []
  | [i] => [data.drop i]
  | i :: j :: rest => ((data.drop i).take (j - i)) :: sliceUp data (j :: rest)

/-- `AbstractP2PClient._extract_packets(data)` (assumes `data` starts with a
Barker): split at every Barker occurrence; the final piece may be partial. -/
def extract_packets (data : Bytes) : List Bytes :=
  sliceUp data (0 :: barkerScan data 0)

/-- One iteration of the `_listen` receive pipeline on `buffer + new_data`:
returns the successfully unwrapped packets, in dispatch order, and the bytes
kept as the next buffer. -/
def listen_dispatches (buffer newData : Bytes) : List Unwrapped × Bytes :=
  let data := buffer ++ newData
  match findSub data BARKER 0 with
  | none => ([], data.drop (data.length - (BARKER_LENGTH - 1)))
  | some bi =>
    let pkts := extract_packets (data.drop bi)
    let dispatched := (pkts.dropLast).filterMap unwrap
    match unwrap (pkts.getLast?.getD []) with
    | none => (dispatched, pkts.getLast?.getD [])
    | some u => (dispatched ++ [u], u.redundantBytes)

theorem sliceUp_cons_ne_nil (d : Bytes) (i : Nat) (l : List Nat) :
    sliceUp d (i :: l) ≠ [] := by
  cases l <;> simp [sliceUp]

theorem extract_packets_ne_nil (d : Bytes) : extract_packets d ≠ [] :=
  sliceUp_cons_ne_nil d 0 _

theorem barkerScanF_mem_occ (d : Bytes) : ∀ fuel last i,
    i ∈ barkerScanF d fuel last → BARKER <+: d.drop i := by
  intro fuel
  induction fuel with
  | zero => intro last i h; simp [barkerScanF] at h
  | succ fuel ih =>
    intro last i h
    simp only [barkerScanF] at h
    rcases hf : findSub d BARKER (last + 8) with _ | j
    · rw [hf] at h
      simp at h
    · rw [hf] at h
      simp only [List.mem_cons] at h
      rcases h with h | h
      · subst h
        exact (findSub_some hf).2.1
      · exact ih j i h

theorem barkerScan_mem_occ {d : Bytes} {last i : Nat}
    (h : i ∈ barkerScan d last) : BARKER <+: d.drop i :=
  barkerScanF_mem_occ d _ last i h

theorem sliceUp_shifted (X W : Bytes) : ∀ zs : List Nat,
    sliceUp (X ++ W) (zs.map (· + X.length)) = sliceUp W zs := by
  intro zs
  induction zs with
  | nil => rfl
  | cons z zs ih =>
    cases zs with
    | nil =>
      show sliceUp (X ++ W) [z + X.length] = sliceUp W [z]
      simp only [sliceUp]
      rw [Nat.add_comm z X.length, List.drop_append]
    | cons z2 rest =>
      show sliceUp (X ++ W) ((z + X.length) :: (z2 + X.length) :: rest.map _) =
        sliceUp W (z :: z2 :: rest)
      simp only [sliceUp]
      congr 1
      rw [Nat.add_comm z X.length, List.drop_append,
        (by omega : z2 + X.length - (X.length + z) = z2 - z)]

theorem sliceUp_split (X W : Bytes) : ∀ xs : List Nat, xs ≠ [] →
    (∀ x ∈ xs, x ≤ X.length) → ∀ ys : List Nat,
    sliceUp (X ++ W) (xs ++ (0 :: ys).map (· + X.length)) =
      sliceUp X xs ++ sliceUp W (0 :: ys) := by
  intro xs
  induction xs with
  | nil => intro h; exact absurd rfl h
  | cons x xs ih =>
    intro _ hle ys
    cases xs with
    | nil =>
      have hx : x ≤ X.length := hle x (by simp)
      show sliceUp (X ++ W) (x :: (0 + X.length) :: ys.map _) =
        sliceUp X [x] ++ sliceUp W (0 :: ys)
      simp only [sliceUp]
      rw [List.cons_append, List.nil_append]
      congr 1
      · rw [List.drop_append_eq_append_drop, Nat.sub_eq_zero_of_le hx,
          List.drop_zero,
          List.take_append_of_le_length (by rw [List.length_drop]; omega),
          List.take_of_length_le (by rw [List.length_drop]; omega)]
      · have := sliceUp_shifted X W (0 :: ys)
        simpa using this
    | cons x2 rest =>
      have hx : x ≤ X.length := hle x (by simp)
      have hx2 : x2 ≤ X.length := hle x2 (by simp)
      show sliceUp (X ++ W) (x :: (x2 :: rest) ++ _) =
        sliceUp X (x :: x2 :: rest) ++ sliceUp W (0 :: ys)
      rw [List.cons_append]
      show ((X ++ W).drop x).take (x2 - x) :: sliceUp (X ++ W) ((x2 :: rest) ++ _) =
        ((X.drop x).take (x2 - x) :: sliceUp X (x2 :: rest)) ++ sliceUp W (0 :: ys)
      rw [List.cons_append]
      congr 1
      · rw [List.drop_append_eq_append_drop, Nat.sub_eq_zero_of_le hx,
          List.drop_zero,
          List.take_append_of_le_length (by rw [List.length_drop]; omega)]
      · exact ih (by simp) (fun y hy => hle y (List.mem_cons_of_mem x hy)) ys

/-- Packet extraction distributes over an append of two Barker-initial
chunks. -/
theorem extract_packets_append (X W : Bytes) (hX : BARKER <+: X)
    (hW : BARKER <+: W) :
    extract_packets (X ++ W) = extract_packets X ++ extract_packets W := by
  unfold extract_packets
  have hocc0 : BARKER <+: X.drop 0 := by
    rw [List.drop_zero]
    exact hX
  have h8 := occ_bound hocc0
  rw [scan_append X W hW 0 (by omega)]
  rw [show X.length :: (barkerScan W 0).map (· + X.length) =
    (0 :: barkerScan W 0).map (· + X.length) from by simp]
  rw [← List.cons_append]
  apply sliceUp_split X W (0 :: barkerScan X 0) (by simp)
  intro x hx
  rcases List.mem_cons.mp hx with h | h
  · omega
  · have := occ_bound (barkerScan_mem_occ h)
    omega

/-- A Barker-initial chunk with no internal Barker occurrence is extracted as
a single packet. -/
theorem extract_packets_single (W : Bytes) (hfree : ∀ j, 0 < j → ¬ BARKER <+: W.drop j) :
    extract_packets W = [W] := by
  unfold extract_packets
  have hnone : findSub W BARKER (0 + 8) = none := by
    rw [findSub_none_iff (by decide)]
    intro j hj hc
    exact hfree j (by omega) hc
  rw [show barkerScan W 0 = [] from by rw [barkerScan_unfold, hnone]]
  simp [sliceUp]

theorem barker_prefix_wrap_unreliable (p : Bytes) :
    BARKER <+: wrap_unreliable p := by
  show BARKER <+: BARKER ++ [1] ++ packU32 (stuff_data p).length ++
    stuff_data p ++ packU32 (crc32 (stuff_data p))
  exact (((List.prefix_append BARKER [1]).trans
    (List.prefix_append _ _)).trans (List.prefix_append _ _)).trans
    (List.prefix_append _ _)

/-- `_listen` iteration when a Barker is found at `bi`. -/
theorem listen_dispatches_some (buffer newData : Bytes) (bi : Nat)
    (hf : findSub (buffer ++ newData) BARKER 0 = some bi) :
    listen_dispatches buffer newData =
      match unwrap ((extract_packets ((buffer ++ newData).drop bi)).getLast?.getD []) with
      | none => (((extract_packets ((buffer ++ newData).drop bi)).dropLast).filterMap unwrap,
          (extract_packets ((buffer ++ newData).drop bi)).getLast?.getD [])
      | some u => (((extract_packets ((buffer ++ newData).drop bi)).dropLast).filterMap unwrap ++ [u],
          u.redundantBytes) := by
  simp only [listen_dispatches, hf]

/-- C6 (corrected): the frozen claim quantifies over *every* garbage byte
string `G`, but if `G` itself contains a complete valid frame the pipeline
dispatches it too, so the dispatch list is not exactly `P1, P2`.  Amended
with the two hypotheses that make the spec's sentence true: `G` alone
produces no dispatches, and the two wrapped frames contain no internal
Barker occurrence.  Then feeding `G ‖ wrap(P1) ‖ wrap(P2)` to the `_listen`
pipeline dispatches exactly the payloads `P1` then `P2` (as unreliable
messages) and leaves an empty buffer: the garbage is dropped without
affecting either delivery. -/
theorem C6_framing_resync (G P1 P2 : Bytes)
    (hp1 : ∀ b ∈ P1, b < 256) (hl1 : P1.length < 2 ^ 31)
    (hp2 : ∀ b ∈ P2, b < 256) (hl2 : P2.length < 2 ^ 31)
    (hfree1 : ∀ j, j < (wrap_unreliable P1).length → 0 < j →
      ¬ BARKER <+: (wrap_unreliable P1).drop j)
    (hfree2 : ∀ j, j < (wrap_unreliable P2).length → 0 < j →
      ¬ BARKER <+: (wrap_unreliable P2).drop j)
    (hG : (listen_dispatches [] G).1 = []) :
    listen_dispatches [] (G ++ (wrap_unreliable P1 ++ wrap_unreliable P2)) =
      ([⟨some P1, none, none, none, []⟩, ⟨some P2, none, none, none, []⟩], []) := by
  have h31 : (2 : Nat) ^ 31 = 2147483648 := by norm_num
  have h32 : (2 : Nat) ^ 32 = 4294967296 := by norm_num
  have hb1 : BARKER <+: wrap_unreliable P1 := barker_prefix_wrap_unreliable P1
  have hb2 : BARKER <+: wrap_unreliable P2 := barker_prefix_wrap_unreliable P2
  have hsl1 := stuff_data_length_le P1
  have hsl2 := stuff_data_length_le P2
  have hu1 : unwrap (wrap_unreliable P1) = some ⟨some P1, none, none, none, []⟩ := by
    rw [unwrap_wrap_unreliable P1 (by omega) (crc32_lt (stuff_data_bytes_lt hp1)),
      stuff_roundtrip]
  have hu2 : unwrap (wrap_unreliable P2) = some ⟨some P2, none, none, none, []⟩ := by
    rw [unwrap_wrap_unreliable P2 (by omega) (crc32_lt (stuff_data_bytes_lt hp2)),
      stuff_roundtrip]
  have hfree1' : ∀ j, 0 < j → ¬ BARKER <+: (wrap_unreliable P1).drop j := by
    intro j hj hc
    by_cases hlt : j < (wrap_unreliable P1).length
    · exact hfree1 j hlt hj hc
    · have := occ_bound hc
      omega
  have hfree2' : ∀ j, 0 < j → ¬ BARKER <+: (wrap_unreliable P2).drop j := by
    intro j hj hc
    by_cases hlt : j < (wrap_unreliable P2).length
    · exact hfree2 j hlt hj hc
    · have := occ_bound hc
      omega
  have hWW : BARKER <+: wrap_unreliable P1 ++ wrap_unreliable P2 :=
    hb1.trans (List.prefix_append _ _)
  have hext : extract_packets (wrap_unreliable P1 ++ wrap_unreliable P2) =
      [wrap_unreliable P1, wrap_unreliable P2] := by
    rw [extract_packets_append _ _ hb1 hb2, extract_packets_single _ hfree1',
      extract_packets_single _ hfree2']
    rfl
  rcases hf : findSub G BARKER 0 with _ | b0
  · -- no Barker in the garbage: the first Barker of the stream is the boundary
    have hfD : findSub (G ++ (wrap_unreliable P1 ++ wrap_unreliable P2)) BARKER 0 =
        some G.length := by
      rw [findSub_in_left (wrap_unreliable P1 ++ wrap_unreliable P2) hWW (Nat.zero_le _),
        hf]
      rfl
    rw [listen_dispatches_some [] (G ++ (wrap_unreliable P1 ++ wrap_unreliable P2))
      G.length (by rw [List.nil_append]; exact hfD)]
    rw [List.nil_append, List.drop_left, hext]
    have hlast : ([wrap_unreliable P1, wrap_unreliable P2].getLast?).getD ([] : Bytes) =
        wrap_unreliable P2 := rfl
    rw [hlast, hu2]
    show (List.filterMap unwrap [wrap_unreliable P1] ++ [_], _) = _
    rw [List.filterMap_cons, hu1]
    rfl
  · -- the garbage itself contains a Barker: its pieces all fail to unwrap
    obtain ⟨hge0, hocc0, hmin0⟩ := findSub_some hf
    have hb0 := occ_bound hocc0
    have hfD : findSub (G ++ (wrap_unreliable P1 ++ wrap_unreliable P2)) BARKER 0 =
        some b0 := by
      rw [findSub_in_left (wrap_unreliable P1 ++ wrap_unreliable P2) hWW (Nat.zero_le _),
        hf]
      rfl
    have hdropD : (G ++ (wrap_unreliable P1 ++ wrap_unreliable P2)).drop b0 =
        G.drop b0 ++ (wrap_unreliable P1 ++ wrap_unreliable P2) := by
      rw [List.drop_append_eq_append_drop, Nat.sub_eq_zero_of_le (by omega),
        List.drop_zero]
    have hextD : extract_packets ((G ++ (wrap_unreliable P1 ++ wrap_unreliable P2)).drop b0) =
        extract_packets (G.drop b0) ++ [wrap_unreliable P1, wrap_unreliable P2] := by
      rw [hdropD, extract_packets_append _ _ hocc0 hWW, hext]
    -- unpack the hypothesis that G alone dispatches nothing
    obtain ⟨ys, y, hys⟩ : ∃ ys y, extract_packets (G.drop b0) = ys ++ [y] := by
      rcases List.eq_nil_or_concat' (extract_packets (G.drop b0)) with h | h
      · exact absurd h (extract_packets_ne_nil _)
      · exact h
    rw [listen_dispatches_some [] G b0 (by rw [List.nil_append]; exact hf)] at hG
    rw [List.nil_append] at hG
    simp only [hys, List.getLast?_concat, Option.getD_some, List.dropLast_concat] at hG
    rcases huy : unwrap y with _ | u
    · rw [huy] at hG
      have hfm : List.filterMap unwrap ys = [] := hG
      have hfmPG : List.filterMap unwrap (extract_packets (G.drop b0)) = [] := by
        rw [hys, List.filterMap_append, hfm, List.filterMap_cons, huy]
        rfl
      rw [listen_dispatches_some [] (G ++ (wrap_unreliable P1 ++ wrap_unreliable P2))
        b0 (by rw [List.nil_append]; exact hfD)]
      rw [List.nil_append, hextD]
      have hlast : ((extract_packets (G.drop b0) ++
          [wrap_unreliable P1, wrap_unreliable P2]).getLast?).getD ([] : Bytes) =
          wrap_unreliable P2 := by
        rw [List.getLast?_append_of_ne_nil _ (by simp)]
        rfl
      have hdl : (extract_packets (G.drop b0) ++
          [wrap_unreliable P1, wrap_unreliable P2]).dropLast =
          extract_packets (G.drop b0) ++ [wrap_unreliable P1] := by
        rw [List.dropLast_append_of_ne_nil _ (by simp)]
        rfl
      rw [hlast, hdl, hu2]
      show (List.filterMap unwrap (extract_packets (G.drop b0) ++
        [wrap_unreliable P1]) ++ [_], _) = _
      rw [List.filterMap_append, hfmPG, List.filterMap_cons, hu1]
      rfl
    · rw [huy] at hG
      have : List.filterMap unwrap ys ++ [u] = [] := hG
      exact absurd this (by simp)

/-- Witness for C6: three garbage bytes, then two wrapped one-byte payloads;
dispatches are exactly the two payloads in order and the buffer ends empty. -/
theorem C6_framing_resync_witness :
    listen_dispatches [] ([1, 2, 3] ++ (wrap_unreliable [65] ++ wrap_unreliable [66])) =
      ([⟨some [65], none, none, none, []⟩, ⟨some [66], none, none, none, []⟩], []) :=
  C6_framing_resync [1, 2, 3] [65] [66] (by decide) (by decide) (by decide) (by decide)
    (by decide) (by decide) (by decide)

/-- Counterexample to the frozen wording of C6: it quantifies over *every*
garbage byte string, but garbage that happens to contain a complete valid
frame is dispatched as well — here `G = wrap_unreliable [88]`, and the
pipeline dispatches three packets, not exactly `P1` then `P2`. -/
theorem C6_framing_resync_counterexample :
    (listen_dispatches []
        (wrap_unreliable [88] ++ (wrap_unreliable [65] ++ wrap_unreliable [66]))).1 =
      [⟨some [88], none, none, none, []⟩, ⟨some [65], none, none, none, []⟩,
        ⟨some [66], none, none, none, []⟩] ∧
    (listen_dispatches []
        (wrap_unreliable [88] ++ (wrap_unreliable [65] ++ wrap_unreliable [66]))).1 ≠
      [⟨some [65], none, none, none, []⟩, ⟨some [66], none, none, none, []⟩] := by
  decide

end P2P
